import Mathlib

/-!
# Verification of the hlw-core-api route-specification compiler

Shallow embedding of the api-builder of `hlw-core-api`:

* the runtime semantics of the dynamic-WHERE-clause code emitted by
  `generateConditionLogic` / `generateDynamicQueryLogic`
  (`src/api-builder/scripts/generate.script.ts`),
* the source emitters themselves (schema constants, route methods,
  dynamic-query text),
* the legacy path-parameter emitter (`src/api-builder/index.ts`),
* the aggregator-file patch engine (`updateIndexFile` in
  `src/api-builder/core/helpers/api-builder.helper.ts` and
  `cleanupIndexFile` / `cleanupBuilderDirectory` in
  `src/api-builder/scripts/pre-generate.script.ts`),
* the JSON spec-loading step (`processJsonFile`).

File edits are modelled as pure functions on the file's text; JS objects as
ordered association lists.
-/

set_option linter.unusedVariables false
set_option linter.unusedTactic false

namespace HlwCore

/-! ## JS runtime values

The request body of a generated handler is parsed from JSON, so its values
are strings, numbers, booleans, `null` and arrays.  A JS object is an
ordered association list; a key that is absent models `undefined`.
-/

inductive RVal where
  | str (s : String)
  | num (n : Int)
  | boolean (b : Bool)
  | null
  | arr (elems : List RVal)

abbrev Payload := List (String × RVal)

/-- JS property read `payload.f`; `none` models `undefined`. -/
def plookup : Payload → String → Option RVal
  | [], _ => none
  | (k, v) :: rest, f => if k = f then some v else plookup rest f

/-- JS `delete payload.f` (object keys are unique, so removing the first
occurrence is exact). -/
def peraseKey : Payload → String → Payload
  | [], _ => []
  | (k, v) :: rest, f => if k = f then rest else (k, v) :: peraseKey rest f

/-- JS property write `obj[k] = v`: overwrite in place, or append a new key. -/
def pset : Payload → String → RVal → Payload
  | [], f, v => [(f, v)]
  | (k, w) :: rest, f, v =>
    if k = f then (k, v) :: rest else (k, w) :: pset rest f v

/-- JS `Object.assign(target, src)`: assign every key of `src` into `target`,
in order. -/
def passign (target : Payload) (src : Payload) : Payload :=
  src.foldl (fun acc kv => pset acc kv.1 kv.2) target

/-- JS string interpolation of a runtime value (used by the emitted
`LIKE` / `ILIKE` code for the wrapped `%value%` parameter). -/
def jsValToString : RVal → String
  | .str s => s
  | .num n => toString n
  | .boolean b => if b then "true" else "false"
  | .null => "null"
  | .arr xs => String.intercalate "," (xs.attach.map fun x =>
      have := List.sizeOf_lt_of_mem x.2
      jsValToString x.1)

/-! ### Decimal rendering of the array index

The emitted `IN` code names its parameters `:field_${index}`; `${index}` is
the decimal rendering of the index, i.e. `Nat.repr`.  We prove `Nat.repr`
injective (needed to show the indexed parameter names never collide) via a
structurally transparent reference implementation `decDigits`.
-/

def decDigits (n : Nat) : List Char :=
  if h : n < 10 then [Nat.digitChar n]
  else decDigits (n / 10) ++ [Nat.digitChar (n % 10)]
decreasing_by exact Nat.div_lt_self (by omega) (by omega)

/-! ## Runtime semantics of the emitted condition logic

`generateConditionLogic` (generate.script.ts, lines 251–321) emits one
guarded block per condition rule; the emitted blocks mutate the three
runtime variables `payload`, `whereConditions` and `queryParams`.
`condStep` is the direct embedding of one emitted block, `runConditions`
of the emitted block sequence (iterated in the declaration order of the
`conditions` map, as `Object.entries` yields it).
-/

structure RState where
  payload : Payload
  whereConds : List String
  queryParams : Payload

/-- Guard `payload.f !== undefined && payload.f !== null`. -/
def isDefNonNull : Option RVal → Bool
  | none => false
  | some .null => false
  | some _ => true

/-- The emitted block for `=`, `>=`, `<=`, `>`, `<` and the fallback case:
push ``  `${field} <op> :${field}` `` when the guard holds; the payload value
stays bound as-is. `sqlOp` is the text between the field name and the
placeholder colon (e.g. `" = :"`). -/
def compareStep (st : RState) (field sqlOp : String) : RState :=
  if isDefNonNull (plookup st.payload field) then
    { st with whereConds := st.whereConds ++ [field ++ sqlOp ++ field] }
  else st

/-- The emitted `IN` block: guard
`payload.f !== undefined && Array.isArray(payload.f) && payload.f.length > 0`;
push ``  `${field} IN (${placeholders})` `` with one `:field_${index}`
placeholder per element, assign each element into `queryParams` under its
indexed name, and `delete payload.f`. -/
def inStep (st : RState) (field : String) : RState :=
  match plookup st.payload field with
  | some (.arr xs) =>
    if xs.length > 0 then
      let placeholders :=
        String.intercalate ", "
          (xs.enum.map fun iv => ":" ++ field ++ "_" ++ Nat.repr iv.1)
      { payload := peraseKey st.payload field
        whereConds := st.whereConds ++ [field ++ " IN (" ++ placeholders ++ ")"]
        queryParams :=
          xs.enum.foldl
            (fun qp iv => pset qp (field ++ "_" ++ Nat.repr iv.1) iv.2)
            st.queryParams }
    else st
  | _ => st

/-- The emitted `IS NULL` block: guard `payload.f === null`; push the
fragment and remove the field from the payload. -/
def isNullStep (st : RState) (field : String) : RState :=
  if plookup st.payload field matches some .null then
    { st with payload := peraseKey st.payload field
              whereConds := st.whereConds ++ [field ++ " IS NULL"] }
  else st

/-- The emitted `IS NOT NULL` block: guard `payload.f === 'NOT_NULL'`. -/
def isNotNullStep (st : RState) (field : String) : RState :=
  if plookup st.payload field matches some (.str "NOT_NULL") then
    { st with payload := peraseKey st.payload field
              whereConds := st.whereConds ++ [field ++ " IS NOT NULL"] }
  else st

/-- The emitted `LIKE` / `ILIKE` block: same guard as `=`; push
``  `${field} <kw> :${field}` ``, assign the `%value%`-wrapped string into
`queryParams` and remove the original payload key. -/
def likeStep (st : RState) (field kw : String) : RState :=
  match plookup st.payload field with
  | none => st
  | some v =>
    if v matches .null then st
    else
      { payload := peraseKey st.payload field
        whereConds := st.whereConds ++ [field ++ " " ++ kw ++ " :" ++ field]
        queryParams :=
          pset st.queryParams field (.str ("%" ++ jsValToString v ++ "%")) }

/-- One emitted block, dispatched on the rule's operator exactly as the
`switch` in `generateConditionLogic` does. -/
def condStep (st : RState) (field operator : String) : RState :=
  if operator = "=" then compareStep st field " = :"
  else if operator = "IN" then inStep st field
  else if operator = "IS NULL" then isNullStep st field
  else if operator = "IS NOT NULL" then isNotNullStep st field
  else if operator = "LIKE" then likeStep st field "LIKE"
  else if operator = "ILIKE" then likeStep st field "ILIKE"
  else if operator = ">=" then compareStep st field " >= :"
  else if operator = "<=" then compareStep st field " <= :"
  else if operator = ">" then compareStep st field " > :"
  else if operator = "<" then compareStep st field " < :"
  else compareStep st field " = :"

/-- The emitted handler body up to the `WHERE`-fragment computation:
run every condition block in declaration order on the inbound body. -/
def runConditions (conds : List (String × String)) (body : Payload) : RState :=
  conds.foldl (fun st fc => condStep st fc.1 fc.2) ⟨body, [], []⟩

/-- `whereConditions.length > 0 ? whereConditions.join(' AND ') : '1=1'`. -/
def dynamicWhere (st : RState) : String :=
  if st.whereConds.isEmpty then "1=1"
  else String.intercalate " AND " st.whereConds

/-- `Object.assign(payload, queryParams)` — the final bound-parameter
payload handed to `findOne`. -/
def finalPayload (st : RState) : Payload :=
  passign st.payload st.queryParams

/-- JS `String.prototype.replace` with a plain-string pattern: replace the
first occurrence only. -/
def replaceFirstChars : List Char → List Char → List Char → List Char
  | [], _, _ => []
  | c :: rest, pat, rep =>
    if pat.isPrefixOf (c :: rest) then rep ++ (c :: rest).drop pat.length
    else c :: replaceFirstChars rest pat rep

def replaceFirst (s pat rep : String) : String :=
  String.mk (replaceFirstChars s.data pat.data rep.data)

/-- The `\x7bdynamic_conditions\x7d` token of the base query. -/
def dynamicToken : String := "\x7bdynamic_conditions\x7d"

/-- The query string the emitted handler computes at runtime: the base query
with the token replaced by the joined fragments. -/
def runtimeQuery (baseQuery : String) (st : RState) : String :=
  replaceFirst baseQuery dynamicToken (dynamicWhere st)

/-- Declarative description of one rule's contribution, evaluated against
the inbound body: `some fragment` when the emitted guard would fire, `none`
otherwise.  Used to state that `runConditions` collects exactly the active
fragments in declaration order. -/
def activeFragment (body : Payload) (field operator : String) : Option String :=
  if operator = "=" then
    if isDefNonNull (plookup body field) then some (field ++ " = :" ++ field) else none
  else if operator = "IN" then
    match plookup body field with
    | some (.arr xs) =>
      if xs.length > 0 then
        some (field ++ " IN (" ++
          String.intercalate ", "
            (xs.enum.map fun iv => ":" ++ field ++ "_" ++ Nat.repr iv.1) ++ ")")
      else none
    | _ => none
  else if operator = "IS NULL" then
    if plookup body field matches some .null then some (field ++ " IS NULL") else none
  else if operator = "IS NOT NULL" then
    if plookup body field matches some (.str "NOT_NULL") then
      some (field ++ " IS NOT NULL")
    else none
  else if operator = "LIKE" then
    if isDefNonNull (plookup body field) then some (field ++ " LIKE :" ++ field) else none
  else if operator = "ILIKE" then
    if isDefNonNull (plookup body field) then some (field ++ " ILIKE :" ++ field) else none
  else if operator = ">=" then
    if isDefNonNull (plookup body field) then some (field ++ " >= :" ++ field) else none
  else if operator = "<=" then
    if isDefNonNull (plookup body field) then some (field ++ " <= :" ++ field) else none
  else if operator = ">" then
    if isDefNonNull (plookup body field) then some (field ++ " > :" ++ field) else none
  else if operator = "<" then
    if isDefNonNull (plookup body field) then some (field ++ " < :" ++ field) else none
  else
    if isDefNonNull (plookup body field) then some (field ++ " = :" ++ field) else none

/-! ## The route-spec data model

`IRouteConfig` (src/api-builder/core/interfaces/api-builder.interface.ts).
The generator also reads `route.name` (absent from the declared interface;
the runtime value is `undefined` when the JSON omits it, hence an `Option`)
and `handler.conditions` / field specs through `any`-typed access.
-/

structure OpenApiMeta where
  summary : String
  description : String
  tags : List String

/-- One payload field's spec, as `generateTypeOptions` /
`getElysiaTypeMethod` read it.  `none` models an absent (`undefined`) key.
`items` holds the literal items-type source text for `Array` fields. -/
structure FieldSpec where
  type : String
  optional : Bool
  format : Option String
  description : Option String
  minimum : Option Int
  maximum : Option Int
  minLength : Option Int
  maxLength : Option Int
  items : Option String

structure RouteHandler where
  requestType : Option String
  query : String
  conditions : Option (List (String × String))

structure RouteDef where
  name : Option String
  path : String
  method : String
  openapi : OpenApiMeta
  payload : Option (List (String × FieldSpec))
  handler : RouteHandler

structure RouteConfig where
  module : String
  version : String
  routes : List RouteDef

/-- JS template interpolation of a possibly-missing name:
`` `${route.name}` `` renders `undefined` as the string `"undefined"`. -/
def jsTemplateName : Option String → String
  | some s => s
  | none => "undefined"

/-- `version.charAt(0).toUpperCase() + version.slice(1)` (ASCII model of
`toUpperCase`; generated identifiers are ASCII). -/
def jsCapitalize (s : String) : String :=
  match s.data with
  | [] => ""
  | c :: rest => String.mk (c.toUpper :: rest)

/-- Substring scan backing `containsSubstr`. -/
def infixOfChars (pat : List Char) : List Char → Bool
  | [] => pat.isEmpty
  | c :: rest => pat.isPrefixOf (c :: rest) || infixOfChars pat rest

/-- JS `String.prototype.includes`. -/
def containsSubstr (s pat : String) : Bool :=
  infixOfChars pat.data s.data

/-! ## The emitters of generate.script.ts -/

/-- `getElysiaTypeMethod` (generate.script.ts, lines 168–185). -/
def getElysiaTypeMethod (type : String) (config : FieldSpec) : String :=
  if type = "String" then "t.String"
  else if type = "Number" then "t.Number"
  else if type = "Boolean" then "t.Boolean"
  else if type = "Array" then
    "t.Array(" ++ (match config.items with | some i => i | none => "t.String()") ++ ")"
  else if type = "Object" then "t.Object"
  else "t.String"

def isArrayType (type : String) : Bool := type = "Array"

/-- `generateTypeOptions` (generate.script.ts, lines 191–223): render the
present constraints in the fixed order format, description, minimum,
maximum, minLength, maxLength. -/
def generateTypeOptions (config : FieldSpec) : String :=
  let options : List String :=
    (match config.format with
      | some f => ["format: \"" ++ f ++ "\""] | none => []) ++
    (match config.description with
      | some d => ["description: \"" ++ d ++ "\""] | none => []) ++
    (match config.minimum with
      | some n => ["minimum: " ++ toString n] | none => []) ++
    (match config.maximum with
      | some n => ["maximum: " ++ toString n] | none => []) ++
    (match config.minLength with
      | some n => ["minLength: " ++ toString n] | none => []) ++
    (match config.maxLength with
      | some n => ["maxLength: " ++ toString n] | none => [])
  if options.isEmpty then "\x7b\x7d"
  else "\x7b\n        " ++ String.intercalate ",\n        " options ++ "\n      \x7d"

/-- `generateSchemaConstant` (generate.script.ts, lines 146–166). -/
def generateSchemaConstant (route : RouteDef) : String :=
  let schemaName := jsTemplateName route.name ++ "PayloadSchema"
  match route.payload with
  | none => "const " ++ schemaName ++ " = t.Object(\x7b\x7d);"
  | some fields =>
    if fields.isEmpty then "const " ++ schemaName ++ " = t.Object(\x7b\x7d);"
    else
      let payloadObject := String.intercalate ",\n" (fields.map fun kv =>
        let typeMethod := getElysiaTypeMethod kv.2.type kv.2
        let options := if isArrayType kv.2.type then "" else generateTypeOptions kv.2
        let typeWithOptions :=
          if isArrayType kv.2.type then typeMethod
          else typeMethod ++ "(" ++ options ++ ")"
        let optionalWrapper :=
          if kv.2.optional then "t.Optional(" ++ typeWithOptions ++ ")"
          else typeWithOptions
        "  " ++ kv.1 ++ ": " ++ optionalWrapper)
      "const " ++ schemaName ++ " = t.Object(\x7b\n" ++ payloadObject ++ "\n\x7d);"

/-- `generateConditionLogic` (generate.script.ts, lines 251–321): the TS
text of one emitted guard block.  (`condStep` above is its runtime
meaning.) -/
def generateConditionLogic (field : String) (operator : String) : String :=
  if operator = "=" then
    "if (payload." ++ field ++ " !== undefined && payload." ++ field ++
    " !== null) \x7b\n      whereConditions.push(`" ++ field ++ " = :" ++ field ++
    "`);\n    \x7d"
  else if operator = "IN" then
    "if (payload." ++ field ++ " !== undefined && Array.isArray(payload." ++ field ++
    ") && payload." ++ field ++ ".length > 0) \x7b\n      const placeholders = payload." ++
    field ++ ".map((_: any, index: number) => `:" ++ field ++
    "_$\x7bindex\x7d`).join(', ');\n      whereConditions.push(`" ++ field ++
    " IN ($\x7bplaceholders\x7d)`);\n      payload." ++ field ++
    ".forEach((value: any, index: number) => \x7b\n        queryParams[`" ++ field ++
    "_$\x7bindex\x7d`] = value;\n      \x7d);\n      delete payload." ++ field ++
    "; // Remove array from payload to avoid conflicts\n    \x7d"
  else if operator = "IS NULL" then
    "if (payload." ++ field ++ " === null) \x7b\n      whereConditions.push('" ++ field ++
    " IS NULL');\n      delete payload." ++ field ++
    "; // Remove from payload as it's handled in query\n    \x7d"
  else if operator = "IS NOT NULL" then
    "if (payload." ++ field ++ " === 'NOT_NULL') \x7b\n      whereConditions.push('" ++
    field ++ " IS NOT NULL');\n      delete payload." ++ field ++
    "; // Remove from payload as it's handled in query\n    \x7d"
  else if operator = "LIKE" then
    "if (payload." ++ field ++ " !== undefined && payload." ++ field ++
    " !== null) \x7b\n      whereConditions.push(`" ++ field ++ " LIKE :" ++ field ++
    "`);\n      queryParams." ++ field ++ " = `%$\x7bpayload." ++ field ++
    "\x7d%`;\n      delete payload." ++ field ++
    "; // Use queryParams version instead\n    \x7d"
  else if operator = "ILIKE" then
    "if (payload." ++ field ++ " !== undefined && payload." ++ field ++
    " !== null) \x7b\n      whereConditions.push(`" ++ field ++ " ILIKE :" ++ field ++
    "`);\n      queryParams." ++ field ++ " = `%$\x7bpayload." ++ field ++
    "\x7d%`;\n      delete payload." ++ field ++
    "; // Use queryParams version instead\n    \x7d"
  else if operator = ">=" then
    "if (payload." ++ field ++ " !== undefined && payload." ++ field ++
    " !== null) \x7b\n      whereConditions.push(`" ++ field ++ " >= :" ++ field ++
    "`);\n    \x7d"
  else if operator = "<=" then
    "if (payload." ++ field ++ " !== undefined && payload." ++ field ++
    " !== null) \x7b\n      whereConditions.push(`" ++ field ++ " <= :" ++ field ++
    "`);\n    \x7d"
  else if operator = ">" then
    "if (payload." ++ field ++ " !== undefined && payload." ++ field ++
    " !== null) \x7b\n      whereConditions.push(`" ++ field ++ " > :" ++ field ++
    "`);\n    \x7d"
  else if operator = "<" then
    "if (payload." ++ field ++ " !== undefined && payload." ++ field ++
    " !== null) \x7b\n      whereConditions.push(`" ++ field ++ " < :" ++ field ++
    "`);\n    \x7d"
  else
    "if (payload." ++ field ++ " !== undefined && payload." ++ field ++
    " !== null) \x7b\n      whereConditions.push(`" ++ field ++ " = :" ++ field ++
    "`);\n    \x7d"

/-- `generateDynamicQueryLogic` (generate.script.ts, lines 225–249).
When `conditions` is absent **or the base query lacks the
`\x7bdynamic_conditions\x7d` token**, it emits a static two-line body; it
never fails.  Otherwise it emits the dynamic WHERE-building body, splicing
`$\x7bdynamicWhere\x7d` into the base query in place of the token
(`String.replace` with a plain-string pattern: first occurrence only). -/
def generateDynamicQueryLogic (route : RouteDef) : String :=
  let baseQuery := route.handler.query
  let staticBody :=
    "    const payload = body;\n    const query = \"" ++ baseQuery ++ "\";"
  match route.handler.conditions with
  | none => staticBody
  | some conds =>
    if ¬ containsSubstr baseQuery dynamicToken then staticBody
    else
      "    const payload = body;\n    const whereConditions: string[] = [];\n" ++
      "    const queryParams: Record<string, any> = \x7b\x7d;\n\n" ++
      "    // Build dynamic WHERE conditions based on payload and conditions config\n" ++
      "    " ++
      String.intercalate "\n    "
        (conds.map fun fc => generateConditionLogic fc.1 fc.2) ++
      "\n\n    // Combine conditions with AND\n" ++
      "    const dynamicWhere = whereConditions.length > 0 ? whereConditions.join(' AND ') : '1=1';\n" ++
      "    const query = `" ++
      replaceFirst baseQuery dynamicToken "$\x7bdynamicWhere\x7d" ++
      "`;\n    \n    // Merge payload with query params for parameter binding\n" ++
      "    Object.assign(payload, queryParams);"

/-- `generateRouteMethod` (generate.script.ts, lines 106–144): always a
`.post` route; `findOne` handlers get the dynamic-query body, everything
else a `findOneById` call on the first payload key. -/
def generateRouteMethod (route : RouteDef) (moduleName : String) : String :=
  let schemaName := jsTemplateName route.name ++ "PayloadSchema"
  let detailSection :=
    ",\n    detail: \x7b\n      summary: \"" ++ route.openapi.summary ++
    "\",\n      description: \"" ++ route.openapi.description ++
    "\",\n      tags: [\"" ++ String.intercalate "\", \"" route.openapi.tags ++
    "\"],\n    \x7d"
  let bodyParams : List String :=
    match route.payload with
    | some fields => fields.map Prod.fst
    | none => []
  let bodyDestructuring :=
    if bodyParams.length > 0 then "\x7b body \x7d" else "\x7b\x7d"
  if route.handler.requestType = some "findOne" then
    let dynamicQueryLogic := generateDynamicQueryLogic route
    "  .post(\"" ++ route.path ++ "\", (" ++ bodyDestructuring ++ ") => \x7b\n" ++
    dynamicQueryLogic ++ "\n    return findOne(payload, query);\n  \x7d, \x7b\n    body: " ++
    schemaName ++ detailSection ++ "\n  \x7d)"
  else
    let functionParams :=
      match bodyParams with
      | p :: _ => "body." ++ p ++ ", \"" ++ route.handler.query ++ "\""
      | [] => "\"" ++ route.handler.query ++ "\""
    "  .post(\"" ++ route.path ++ "\", (" ++ bodyDestructuring ++ ") => \x7b\n" ++
    "    return findOneById(" ++ functionParams ++ ");\n  \x7d, \x7b\n    body: " ++
    schemaName ++ detailSection ++ "\n  \x7d)"

/-- The canonical route-module variable name for `(module, version)`:
`` `${moduleName}${version.charAt(0).toUpperCase() + version.slice(1)}Routes` ``. -/
def generateRouteVariableName (config : RouteConfig) : String :=
  config.module ++ jsCapitalize config.version ++ "Routes"

/-- `generateRouteFile` (generate.script.ts, lines 76–104). -/
def generateRouteFile (config : RouteConfig) : String :=
  let className := generateRouteVariableName config
  let routePrefix := "/" ++ config.module ++ "/" ++ config.version
  let imports :=
    "import \x7b findOneById, findOne \x7d from \"@/core/services/find.service\";\n" ++
    "import Elysia, \x7b t \x7d from \"elysia\";"
  let schemaConstants :=
    String.intercalate "\n\n" (config.routes.map generateSchemaConstant)
  let routeDefinitions :=
    String.intercalate "\n"
      (config.routes.map fun r => generateRouteMethod r config.module)
  imports ++ "\n\n" ++ schemaConstants ++ "\n\nconst " ++ className ++
    " = new Elysia(\x7b prefix: \"" ++ routePrefix ++ "\" \x7d)\n" ++
    routeDefinitions ++ ";\n\nexport default " ++ className ++ ";\n"

/-! ## The legacy emitter of src/api-builder/index.ts

This is the generator that produced the committed
`src/builder/users/v1/users-v1.routes.ts`; it emits `.get`-style routes
with a path-parameter validation schema (`generateParamsValidation`).
-/

namespace Legacy

/-- First character class of the `:([a-zA-Z_][a-zA-Z0-9_]*)` path-param
regex. -/
def isParamStart (c : Char) : Bool := c.isAlpha || c = '_'

/-- Continuation character class of the path-param regex. -/
def isParamChar (c : Char) : Bool := c.isAlphanum || c = '_'

/-- `extractPathParams` (index.ts, lines 36–39): all `:name` segments in
order, as the global regex match finds them.  The scan consumes at least
one character per step, so fuelling it with the input length is exact. -/
def extractPathParamsAux : Nat → List Char → List String
  | 0, _ => []
  | _ + 1, [] => []
  | fuel + 1, c :: rest =>
    if c = ':' && (match rest.head? with
                   | some d => isParamStart d
                   | none => false) then
      let name := rest.takeWhile isParamChar
      String.mk name :: extractPathParamsAux fuel (rest.drop name.length)
    else extractPathParamsAux fuel rest

def extractPathParams (path : String) : List String :=
  extractPathParamsAux path.data.length path.data

/-- `generateParamsValidation` (index.ts, lines 41–53): a segment literally
named `id` is constrained to UUID format; any other segment gets only a
capitalized description. -/
def generateParamsValidation (pathParams : List String) : String :=
  if pathParams.isEmpty then ""
  else
    let paramsObject := String.intercalate ",\n" (pathParams.map fun param =>
      if param = "id" then
        "      " ++ param ++ ": t.String(\x7b\n        format: \"uuid\",\n        description: \"" ++
        jsCapitalize param ++ " ID\",\n      \x7d)"
      else
        "      " ++ param ++ ": t.String(\x7b\n        description: \"" ++
        jsCapitalize param ++ "\",\n      \x7d)")
    "\n    params: t.Object(\x7b\n" ++ paramsObject ++ "\n    \x7d)"

/-- `generateRouteMethod` (index.ts, lines 55–81): `.method` route over the
extracted path params; the params block is attached whenever
`paramsValidation` is a non-empty string. -/
def generateRouteMethod (route : RouteDef) (moduleName : String) : String :=
  let method := route.method.toLower
  let pathParams := extractPathParams route.path
  let paramsValidation := generateParamsValidation pathParams
  let paramsDestructuring :=
    if pathParams.length > 0 then
      "\x7b params: \x7b " ++ String.intercalate ", " pathParams ++ " \x7d\x7d"
    else "\x7b\x7d"
  let functionParams :=
    if pathParams.length > 0 then
      String.intercalate ", " pathParams ++ ", \"" ++ route.handler.query ++ "\""
    else "\"" ++ route.handler.query ++ "\""
  let detailSection :=
    ",\n    detail: \x7b\n      summary: \"" ++ route.openapi.summary ++
    "\",\n      description: \"" ++ route.openapi.description ++
    "\",\n      tags: [\"" ++ String.intercalate "\", \"" route.openapi.tags ++
    "\"],\n    \x7d"
  "  ." ++ method ++ "(\"" ++ route.path ++ "\", (" ++ paramsDestructuring ++
  ") => \x7b\n    return findOneById(" ++ functionParams ++ ");\n  \x7d" ++
  (if paramsValidation ≠ "" then
      ", \x7b" ++ paramsValidation ++ detailSection ++ "\n  \x7d"
    else "") ++ ")"

end Legacy

/-! ## The aggregator-file patch engine

`parseIndexFile` / `parseIndexFileFromContent`
(api-builder.helper.ts, lines 6–90), `updateIndexFile` (lines 92–148) and
`cleanupIndexFile` / `cleanupBuilderDirectory`
(pre-generate.script.ts, lines 24–116), modelled as pure functions on the
aggregator file's text.
-/

/-- JS `content.split('\n')`, on char lists. -/
def splitChars : List Char → List (List Char)
  | [] => [[]]
  | c :: cs =>
    match splitChars cs with
    | [] => [[c]]
    | h :: t => if c = '\n' then [] :: h :: t else (c :: h) :: t

/-- JS `lines.join('\n')`, on char lists. -/
def joinChars : List (List Char) → List Char
  | [] => []
  | [l] => l
  | l :: rest => l ++ '\n' :: joinChars rest

def splitLines (s : String) : List String :=
  (splitChars s.data).map String.mk

def joinLines (lines : List String) : String :=
  String.mk (joinChars (lines.map String.data))

def isWsChar (c : Char) : Bool := c.isWhitespace

/-- JS `line.trim()` (ASCII whitespace model). -/
def trimChars (cs : List Char) : List Char :=
  ((cs.dropWhile isWsChar).reverse.dropWhile isWsChar).reverse

/-- The `\w` character class. -/
def wordChar (c : Char) : Bool := c.isAlphanum || c = '_'

/-- Consume `\s+`. -/
def dropWs1 : List Char → Option (List Char)
  | [] => none
  | c :: rest => if isWsChar c then some (rest.dropWhile isWsChar) else none

/-- Consume `(\w+)`, returning the capture and the rest. -/
def takeWord1 (cs : List Char) : Option (List Char × List Char) :=
  let w := cs.takeWhile wordChar
  if w.isEmpty then none else some (w, cs.dropWhile wordChar)

/-- Consume a literal. -/
def stripLit (lit : List Char) (cs : List Char) : Option (List Char) :=
  if lit.isPrefixOf cs then some (cs.drop lit.length) else none

/-- The import-line matcher
`/^import\s+(\w+)\s+from\s+["'](.+routes)["'];?$/` applied to the trimmed
line; returns `(variableName, importPath)`.  The trailing
`["'];?$` is end-anchored, so the greedy `(.+routes)` capture is the text
between the opening quote and that fixed-size tail. -/
def parseImportLine (line : String) : Option (String × String) := do
  let cs := trimChars line.data
  let r1 ← stripLit "import".data cs
  let r2 ← dropWs1 r1
  let (w, r3) ← takeWord1 r2
  let r4 ← dropWs1 r3
  let r5 ← stripLit "from".data r4
  let r6 ← dropWs1 r5
  match r6 with
  | q :: r7 =>
    if q = '"' || q = '\'' then
      let r8 := if r7.getLast? = some ';' then r7.dropLast else r7
      match r8.getLast? with
      | some q2 =>
        if q2 = '"' || q2 = '\'' then
          let path := r8.dropLast
          if "routes".data.isSuffixOf path && decide (7 ≤ path.length) then
            some (String.mk w, String.mk path)
          else none
        else none
      | none => none
    else none
  | [] => none

/-- The registration matcher `/\.use\((\w+)\)/` (first match in the line):
scan for `.use(`, take `\w+`, require `)`. -/
def findUseVar : List Char → Option String
  | [] => none
  | c :: rest =>
    if ".use(".data.isPrefixOf (c :: rest) then
      let after := (c :: rest).drop 5
      let w := after.takeWhile wordChar
      if w.isEmpty then findUseVar rest
      else
        match after.drop w.length with
        | ')' :: _ => some (String.mk w)
        | _ => findUseVar rest
    else findUseVar rest

structure ImportRecord where
  variableName : String
  importPath : String
  lineNumber : Nat

structure UseRecord where
  variableName : String
  lineNumber : Nat

structure IndexFileInfo where
  content : String
  imports : List ImportRecord
  routeUses : List UseRecord
  lastImportLine : Nat
  lastRouteUseLine : Nat

/-- `parseIndexFileFromContent` (and the file-reading `parseIndexFile`,
whose body is identical): scan every trimmed line for the two patterns,
recording 1-based line numbers and the running maxima. -/
def parseIndexInfo (content : String) : IndexFileInfo :=
  let lines := splitLines content
  let imports := lines.enum.filterMap fun il =>
    (parseImportLine il.2).map fun vp =>
      { variableName := vp.1, importPath := vp.2, lineNumber := il.1 + 1 }
  let routeUses := lines.enum.filterMap fun il =>
    (findUseVar (trimChars il.2.data)).map fun v =>
      { variableName := v, lineNumber := il.1 + 1 }
  { content := content
    imports := imports
    routeUses := routeUses
    lastImportLine := imports.foldl (fun m r => max m r.lineNumber) 0
    lastRouteUseLine := routeUses.foldl (fun m r => max m r.lineNumber) 0 }

/-- `generateImportStatement` (api-builder.helper.ts, lines 157–162). -/
def generateImportPath (config : RouteConfig) : String :=
  "./builder/" ++ config.module ++ "/" ++ config.version ++ "/" ++
    config.module ++ "-" ++ config.version ++ ".routes"

def generateImportStatement (config : RouteConfig) : String :=
  "import " ++ generateRouteVariableName config ++ " from \"" ++
    generateImportPath config ++ "\";"

/-- The per-line scan for the registration-insertion anchor
(api-builder.helper.ts, lines 127–133): the last line containing both
`.use(` and `Routes`; the insert position is the line after it. -/
def lastUseAnchor (lines : List String) : Option Nat :=
  lines.enum.foldl
    (fun acc il =>
      if containsSubstr il.2 ".use(" && containsSubstr il.2 "Routes" then
        some (il.1 + 1)
      else acc)
    none

/-- `updateIndexFile` (api-builder.helper.ts, lines 92–148) as a transform
of the aggregator file's content (the write happens only when something was
added; otherwise the content is untouched).  `splice(i, 0, x)` is
`insertIdx i x`; the insertion indices are parsed line numbers, hence
within bounds. -/
def updateIndexFile (config : RouteConfig) (content : String) : String :=
  let indexInfo := parseIndexInfo content
  let variableName := generateRouteVariableName config
  let importStatement := generateImportStatement config
  let importExists := indexInfo.imports.any fun imp => imp.variableName = variableName
  let useExists := indexInfo.routeUses.any fun u => u.variableName = variableName
  if importExists && useExists then content
  else
    let lines0 := splitLines content
    let lines1 :=
      if importExists then lines0
      else lines0.insertIdx indexInfo.lastImportLine importStatement
    let useInsertIdx : Option Nat := lastUseAnchor lines1
    let lines2 :=
      if useExists then lines1
      else
        match useInsertIdx with
        | some k => lines1.insertIdx k ("  .use(" ++ variableName ++ ")")
        | none => lines1
    let addedImport := !importExists
    let addedUse := !useExists && useInsertIdx.isSome
    if addedImport || addedUse then joinLines lines2 else content

/-- The builder-import heuristic of `cleanupIndexFile`:
`imp.importPath.includes('./builder/') || imp.importPath.includes('/builder/')`. -/
def isBuilderImportPath (p : String) : Bool :=
  containsSubstr p "./builder/" || containsSubstr p "/builder/"

/-- JS `.sort((a, b) => b - a)`: sort numerically descending. -/
def sortDescNat (l : List Nat) : List Nat :=
  l.insertionSort (fun a b => b ≤ a)

/-- Successive `splice(i, 1)` calls. -/
def eraseIdxs (lines : List String) (idxs : List Nat) : List String :=
  idxs.foldl (fun ls i => ls.eraseIdx i) lines

/-- `cleanupIndexFile` (pre-generate.script.ts, lines 56–116) as a content
transform: remove builder imports in descending line order, re-parse the
joined text, then remove the matching registrations in descending order. -/
def cleanupIndexFile (content : String) : String :=
  let indexInfo := parseIndexInfo content
  let builderImports := indexInfo.imports.filter fun imp =>
    isBuilderImportPath imp.importPath
  let builderRoutes := indexInfo.routeUses.filter fun u =>
    builderImports.any fun imp => imp.variableName = u.variableName
  if builderImports.isEmpty && builderRoutes.isEmpty then content
  else
    let lines0 := splitLines content
    let importLinesToRemove :=
      sortDescNat (builderImports.map fun imp => imp.lineNumber - 1)
    let lines1 := eraseIdxs lines0 importLinesToRemove
    let updatedContent := joinLines lines1
    let updatedInfo := parseIndexInfo updatedContent
    let lines2 := splitLines updatedContent
    let routeLinesToRemove :=
      sortDescNat
        ((updatedInfo.routeUses.filter fun u =>
            builderRoutes.any fun br => br.variableName = u.variableName).map
          fun u => u.lineNumber - 1)
    let lines3 := eraseIdxs lines2 routeLinesToRemove
    joinLines lines3

/-- `cleanupBuilderDirectory` (pre-generate.script.ts, lines 24–53): remove
every listed entry of the builder directory, one `rm` per entry. -/
def cleanupBuilderDirectory (items : List String) : List String :=
  items.foldl (fun dir item => dir.filter fun e => e ≠ item) items

/-- The variable parsed by the registration matcher from a raw line. -/
def lineUseVar (l : String) : Option String :=
  findUseVar (trimChars l.data)

/-- A line that `cleanupIndexFile` classifies as a builder-generated
import. -/
def isBuilderImportLine (l : String) : Bool :=
  match parseImportLine l with
  | some vp => isBuilderImportPath vp.2
  | none => false

/-- The variable names of the builder-generated imports of a content. -/
def builderImportVars (content : String) : List String :=
  (((parseIndexInfo content).imports.filter fun r =>
      isBuilderImportPath r.importPath)).map fun r => r.variableName

/-- A line whose registration `cleanupIndexFile` removes: its `.use`
variable matches a builder-generated import of the content. -/
def isRemovedUseLine (content : String) (l : String) : Bool :=
  match lineUseVar l with
  | some v => (builderImportVars content).contains v
  | none => false

/-- The 0-based positions of the lines satisfying `Q`, starting the count
at `n`: the index set the descending-order removals of `cleanupIndexFile`
operate on. -/
def linePositions (Q : String → Bool) (n : Nat) (ls : List String) : List Nat :=
  (List.enumFrom n ls).filterMap fun il => if Q il.2 then some il.1 else none

instance : IsTotal Nat fun a b : Nat => b ≤ a := ⟨fun a b => le_total b a⟩

instance : IsTrans Nat fun a b : Nat => b ≤ a :=
  ⟨fun _ _ _ h1 h2 => le_trans h2 h1⟩

instance : IsAntisymm Nat fun a b : Nat => b ≤ a :=
  ⟨fun _ _ h1 h2 => le_antisymm h2 h1⟩

/-! ## Spec loading (processJsonFile, generate.script.ts lines 40–74)

`processJsonFile` performs no structural validation: it `JSON.parse`s the
document and immediately uses `config.module` / `config.version` in
`path.join` (which throws a `TypeError` on a non-string argument) and
`config.routes.map` (which throws a `TypeError` when `routes` is absent or
not an array).  A document that is not valid JSON makes `JSON.parse` throw
a `SyntaxError`.  The emitted file content itself is modelled by
`generateRouteFile` over the decoded config; the JSON-level model stops at
the raw routes array, which is all the spec-loading claim needs.
-/

inductive JsonValue where
  | str (s : String)
  | num (n : Int)
  | boolean (b : Bool)
  | null
  | arrJ (xs : List JsonValue)
  | obj (fields : List (String × JsonValue))

/-- A spec document: either text that is not valid JSON, or a JSON value. -/
inductive JsonDoc where
  | invalid
  | valid (v : JsonValue)

inductive JsError where
  | syntaxErr
  | typeErr (msg : String)

/-- `JSON.parse`. -/
def jsonParse : JsonDoc → Except JsError JsonValue
  | .invalid => .error .syntaxErr
  | .valid v => .ok v

def lookupJ : List (String × JsonValue) → String → Option JsonValue
  | [], _ => none
  | (k, v) :: rest, f => if k = f then some v else lookupJ rest f

/-- JS member access `config.k`: `undefined` (`none`) off non-objects,
`TypeError` off `null`. -/
def jsGetField (v : JsonValue) (k : String) : Except JsError (Option JsonValue) :=
  match v with
  | .obj fields => .ok (lookupJ fields k)
  | .null => .error (.typeErr "Cannot read properties of null")
  | _ => .ok none

/-- Node's `path.join` argument check: every segment must be a string. -/
def requirePathString (v : Option JsonValue) : Except JsError String :=
  match v with
  | some (.str s) => .ok s
  | _ => .error (.typeErr "The path argument must be of type string")

/-- `config.routes.map(...)`: only an array has `.map`. -/
def requireRoutesArray (v : Option JsonValue) : Except JsError (List JsonValue) :=
  match v with
  | some (.arrJ xs) => .ok xs
  | _ => .error (.typeErr "config.routes.map is not a function")

/-- `processJsonFile` up to the content write: parse, build the output path
from `config.module` / `config.version`, then map over `config.routes`. -/
def processJsonFile (doc : JsonDoc) : Except JsError (String × List JsonValue) := do
  let config ← jsonParse doc
  let m ← requirePathString (← jsGetField config "module")
  let v ← requirePathString (← jsGetField config "version")
  let outputPath :=
    "src/builder/" ++ m ++ "/" ++ v ++ "/" ++ m ++ "-" ++ v ++ ".routes.ts"
  let routes ← requireRoutesArray (← jsGetField config "routes")
  pure (outputPath, routes)

/-! ## Spec-described template-mismatch failure (for comparison)

The spec (§4.3, §7) describes a `TemplateMismatchError` raised when
`conditions` exist but the base query lacks the token.  No such error
exists anywhere in the source; `generateDynamicQueryLogicSpec` is the
fallible compile the spec's words describe, to be compared with the
source's total `generateDynamicQueryLogic`.
-/

inductive TemplateMismatchError where
  | templateMismatch

/-- Modelled from the spec: "The compiler must substitute the
`\x7bdynamic_conditions\x7d` token exactly once; if the token is missing
while conditions exist, compilation fails with a TemplateMismatchError."
Succeeds with the source's emission otherwise. -/
def generateDynamicQueryLogicSpec (route : RouteDef) :
    Except TemplateMismatchError String :=
  match route.handler.conditions with
  | some conds =>
    if !conds.isEmpty && !containsSubstr route.handler.query dynamicToken then
      .error .templateMismatch
    else .ok (generateDynamicQueryLogic route)
  | none => .ok (generateDynamicQueryLogic route)

/-! ## Concrete fixtures used by counterexamples and witnesses -/

def optionalStringField : FieldSpec :=
  { type := "String", optional := true, format := none, description := none
    minimum := none, maximum := none, minLength := none, maxLength := none
    items := none }

/-- A `findOne` route with a non-empty conditions map whose base query
lacks the `\x7bdynamic_conditions\x7d` token. -/
def tokenlessRoute : RouteDef :=
  { name := some "findThing"
    path := "/find"
    method := "POST"
    openapi := { summary := "Find", description := "Find a thing", tags := ["Things"] }
    payload := some [("name", optionalStringField)]
    handler :=
      { requestType := some "findOne"
        query := "SELECT id FROM things"
        conditions := some [("name", "=")] } }

/-- A route definition without a `name` field. -/
def namelessRoute1 : RouteDef :=
  { name := none
    path := "/"
    method := "POST"
    openapi := { summary := "A", description := "a", tags := ["T"] }
    payload := none
    handler := { requestType := none, query := "q1", conditions := none } }

/-- A second nameless route. -/
def namelessRoute2 : RouteDef :=
  { name := none
    path := "/find"
    method := "POST"
    openapi := { summary := "B", description := "b", tags := ["T"] }
    payload := none
    handler := { requestType := none, query := "q2", conditions := none } }

/-- The `(users, v1)` route spec pair. -/
def usersConfig : RouteConfig :=
  { module := "users", version := "v1", routes := [] }

/-! ## Arithmetic helper lemmas -/

theorem decDigits_unfold (n : Nat) :
    decDigits n =
      if n < 10 then [Nat.digitChar n]
      else decDigits (n / 10) ++ [Nat.digitChar (n % 10)] := by
  rw [decDigits]
  split <;> simp_all

theorem decDigits_ne_nil (n : Nat) : decDigits n ≠ [] := by
  rw [decDigits_unfold]
  split <;> simp

theorem toDigitsCore_eq_decDigits :
    ∀ (fuel n : Nat) (ds : List Char), n < fuel →
      Nat.toDigitsCore 10 fuel n ds = decDigits n ++ ds := by
  intro fuel
  induction fuel with
  | zero => intro n ds h; omega
  | succ f ih =>
    intro n ds h
    rw [Nat.toDigitsCore]
    by_cases hz : n / 10 = 0
    · have hn : n < 10 := by omega
      rw [decDigits_unfold]
      simp [hz, Nat.mod_eq_of_lt hn, if_pos hn]
    · have hn : ¬ n < 10 := by
        intro hlt
        exact hz (Nat.div_eq_of_lt hlt)
      have hrec : n / 10 < f := by
        have := Nat.div_lt_self (n := n) (k := 10) (by omega) (by omega)
        omega
      simp only [if_neg hz]
      rw [ih (n / 10) _ hrec]
      conv_rhs => rw [decDigits_unfold]
      rw [if_neg hn]
      simp

theorem repr_eq_decDigits (n : Nat) : Nat.repr n = String.mk (decDigits n) := by
  have h := toDigitsCore_eq_decDigits (n + 1) n [] (Nat.lt_succ_self n)
  simp only [Nat.repr, Nat.toDigits, List.asString, h, List.append_nil]

theorem digitChar_inj_lt (a b : Nat) (ha : a < 10) (hb : b < 10)
    (h : Nat.digitChar a = Nat.digitChar b) : a = b := by
  interval_cases a <;> interval_cases b <;> revert h <;> decide

theorem decDigits_inj : ∀ m n : Nat, decDigits m = decDigits n → m = n := by
  intro m
  induction m using Nat.strong_induction_on with
  | _ m ih =>
    intro n h
    by_cases hm : m < 10 <;> by_cases hn : n < 10
    · rw [decDigits_unfold, if_pos hm] at h
      rw [decDigits_unfold (n := n), if_pos hn] at h
      exact digitChar_inj_lt m n hm hn (List.singleton_injective h)
    · exfalso
      rw [decDigits_unfold, if_pos hm] at h
      rw [decDigits_unfold (n := n), if_neg hn] at h
      have h1 : (1 : Nat) = (decDigits (n / 10)).length + 1 := by
        simpa using congrArg List.length h
      have := List.length_pos.mpr (decDigits_ne_nil (n / 10))
      omega
    · exfalso
      rw [decDigits_unfold, if_neg hm] at h
      rw [decDigits_unfold (n := n), if_pos hn] at h
      have h1 : (decDigits (m / 10)).length + 1 = 1 := by
        simpa using congrArg List.length h
      have := List.length_pos.mpr (decDigits_ne_nil (m / 10))
      omega
    · rw [decDigits_unfold, if_neg hm] at h
      rw [decDigits_unfold (n := n), if_neg hn] at h
      have hrev := congrArg List.reverse h
      simp only [List.reverse_append, List.reverse_cons, List.reverse_nil,
        List.nil_append, List.cons_append, List.cons.injEq] at hrev
      obtain ⟨hd, htl⟩ := hrev
      have hdiv : m / 10 = n / 10 :=
        ih (m / 10) (Nat.div_lt_self (by omega) (by omega)) (n / 10)
          (List.reverse_injective htl)
      have hmod : m % 10 = n % 10 :=
        digitChar_inj_lt _ _ (Nat.mod_lt m (by omega)) (Nat.mod_lt n (by omega)) hd
      have h1 := Nat.div_add_mod m 10
      have h2 := Nat.div_add_mod n 10
      omega

theorem natRepr_inj {m n : Nat} (h : Nat.repr m = Nat.repr n) : m = n := by
  rw [repr_eq_decDigits, repr_eq_decDigits] at h
  exact decDigits_inj m n (by injection h)

/-! ## Payload (association-list) lemmas -/

theorem plookup_append (p q : Payload) (k : String) :
    plookup (p ++ q) k =
      match plookup p k with
      | some v => some v
      | none => plookup q k := by
  induction p with
  | nil => simp [plookup]
  | cons kv rest ih =>
    obtain ⟨k2, v⟩ := kv
    by_cases h : k2 = k <;> simp [plookup, h, ih]

theorem plookup_pset_self (p : Payload) (k : String) (v : RVal) :
    plookup (pset p k v) k = some v := by
  induction p with
  | nil => simp [pset, plookup]
  | cons kv rest ih =>
    obtain ⟨k2, w⟩ := kv
    by_cases h : k2 = k <;> simp [pset, plookup, h, ih]

theorem plookup_pset_other (p : Payload) (k k2 : String) (v : RVal)
    (h : k2 ≠ k) : plookup (pset p k v) k2 = plookup p k2 := by
  induction p with
  | nil =>
    simp only [pset, plookup]
    rw [if_neg fun hh : k = k2 => h hh.symm]
  | cons kv rest ih =>
    obtain ⟨k3, w⟩ := kv
    by_cases h3 : k3 = k
    · subst h3
      simp only [pset, if_pos rfl, plookup]
      rw [if_neg fun hh : k3 = k2 => h hh.symm,
        if_neg fun hh : k3 = k2 => h hh.symm]
    · simp only [pset, if_neg h3, plookup]
      by_cases h2 : k3 = k2
      · rw [if_pos h2, if_pos h2]
      · rw [if_neg h2, if_neg h2, ih]

theorem pset_eq_append (p : Payload) (k : String) (v : RVal)
    (h : plookup p k = none) : pset p k v = p ++ [(k, v)] := by
  induction p with
  | nil => simp [pset]
  | cons kv rest ih =>
    obtain ⟨k2, w⟩ := kv
    simp only [plookup] at h
    by_cases h2 : k2 = k
    · simp [h2] at h
    · simp only [pset, if_neg h2, List.cons_append, List.cons.injEq, true_and]
      exact ih (by simpa [h2] using h)

theorem plookup_eq_none_of_keys (p : Payload) (k : String)
    (h : ∀ kv ∈ p, kv.1 ≠ k) : plookup p k = none := by
  induction p with
  | nil => rfl
  | cons kv rest ih =>
    obtain ⟨k2, w⟩ := kv
    have hk2 : k2 ≠ k := h (k2, w) (List.mem_cons_self _ _)
    simp only [plookup, if_neg hk2]
    exact ih fun kv hm => h kv (List.mem_cons_of_mem _ hm)

theorem plookup_perase_self (p : Payload) (f : String)
    (h : (p.map Prod.fst).Nodup) : plookup (peraseKey p f) f = none := by
  induction p with
  | nil => rfl
  | cons kv rest ih =>
    obtain ⟨k, v⟩ := kv
    simp only [List.map, List.nodup_cons] at h
    by_cases hk : k = f
    · subst hk
      simp only [peraseKey, if_pos rfl]
      exact plookup_eq_none_of_keys _ _ fun kv hm hh =>
        h.1 (hh ▸ List.mem_map_of_mem Prod.fst hm)
    · simp only [peraseKey, if_neg hk, plookup, if_neg hk]
      exact ih h.2

theorem plookup_perase_other (p : Payload) (f g : String) (h : g ≠ f) :
    plookup (peraseKey p f) g = plookup p g := by
  induction p with
  | nil => rfl
  | cons kv rest ih =>
    obtain ⟨k, v⟩ := kv
    by_cases hk : k = f
    · subst hk
      rw [show peraseKey ((k, v) :: rest) k = rest by simp [peraseKey]]
      simp only [plookup]
      rw [if_neg fun hh : k = g => h hh.symm]
    · simp only [peraseKey, if_neg hk, plookup]
      by_cases hg : k = g
      · rw [if_pos hg, if_pos hg]
      · rw [if_neg hg, if_neg hg, ih]

theorem plookup_passign (t src : Payload)
    (h : (src.map Prod.fst).Nodup) (k : String) :
    plookup (passign t src) k =
      match plookup src k with
      | some v => some v
      | none => plookup t k := by
  induction src generalizing t with
  | nil => simp [passign, plookup]
  | cons kv rest ih =>
    obtain ⟨k0, v0⟩ := kv
    simp only [List.map, List.nodup_cons] at h
    have hfold : passign t ((k0, v0) :: rest) = passign (pset t k0 v0) rest := rfl
    rw [hfold, ih _ h.2]
    by_cases hk : k0 = k
    · subst hk
      have hnone : plookup rest k0 =
          none := plookup_eq_none_of_keys _ _ fun kv hm hh =>
        h.1 (hh ▸ List.mem_map_of_mem Prod.fst hm)
      simp [plookup, hnone, plookup_pset_self]
    · simp only [plookup, if_neg hk]
      cases hrest : plookup rest k
      · simp [plookup_pset_other _ _ _ _ fun hh => hk hh.symm]
      · simp

/-! ## Indexed parameter names -/

theorem string_append_cancel_left {a b c : String} (h : a ++ b = a ++ c) :
    b = c := by
  apply String.ext
  have hd := congrArg String.data h
  simp only [String.data_append] at hd
  exact List.append_cancel_left hd

theorem natRepr_length_pos (n : Nat) : 0 < (Nat.repr n).length := by
  rw [repr_eq_decDigits]
  have := decDigits_ne_nil n
  cases hd : decDigits n with
  | nil => exact absurd hd this
  | cons c rest => simp [String.length, hd]

theorem paramName_inj (f : String) {i j : Nat}
    (h : f ++ "_" ++ Nat.repr i = f ++ "_" ++ Nat.repr j) : i = j := by
  rw [String.append_assoc, String.append_assoc] at h
  exact natRepr_inj (string_append_cancel_left (string_append_cancel_left h))

theorem paramName_ne_field (f : String) (i : Nat) :
    f ++ "_" ++ Nat.repr i ≠ f := by
  intro h
  have hl := congrArg String.length h
  simp only [String.length_append] at hl
  have := natRepr_length_pos i
  have hu : ("_" : String).length = 1 := rfl
  omega

/-- Folding the emitted `queryParams[...] = value` assignments over fresh
indexed names just appends the indexed entries in order. -/
theorem foldl_pset_enumFrom (f : String) (xs : List RVal) :
    ∀ (s : Nat) (acc : Payload),
      (∀ i, s ≤ i → plookup acc (f ++ "_" ++ Nat.repr i) = none) →
      (List.enumFrom s xs).foldl
          (fun qp iv => pset qp (f ++ "_" ++ Nat.repr iv.1) iv.2) acc
        = acc ++ (List.enumFrom s xs).map
            (fun iv => (f ++ "_" ++ Nat.repr iv.1, iv.2)) := by
  induction xs with
  | nil => intro s acc hfresh; simp [List.enumFrom]
  | cons x rest ih =>
    intro s acc hfresh
    simp only [List.enumFrom, List.foldl, List.map]
    rw [pset_eq_append _ _ _ (hfresh s le_rfl)]
    rw [ih (s + 1) _ ?fresh]
    · simp
    case fresh =>
      intro i hi
      rw [plookup_append, hfresh i (by omega)]
      simp only [plookup]
      rw [if_neg fun hh => by have := paramName_inj f hh; omega]

theorem plookup_enumFrom_map (f : String) (xs : List RVal) :
    ∀ (s i : Nat) (hi : i < xs.length),
      plookup
        ((List.enumFrom s xs).map fun iv => (f ++ "_" ++ Nat.repr iv.1, iv.2))
        (f ++ "_" ++ Nat.repr (s + i)) = some (xs.get ⟨i, hi⟩) := by
  induction xs with
  | nil => intro s i hi; simp at hi
  | cons x rest ih =>
    intro s i hi
    match i with
    | 0 => simp [List.enumFrom, plookup]
    | i + 1 =>
      simp only [List.enumFrom, List.map, plookup]
      rw [if_neg fun hh => by have := paramName_inj f hh; omega]
      have := ih (s + 1) i (by simpa using Nat.lt_of_succ_lt_succ hi)
      rw [show s + 1 + i = s + (i + 1) by omega] at this
      simpa using this

theorem enumFrom_map_keys_nodup (f : String) (xs : List RVal) (s : Nat) :
    ((((List.enumFrom s xs).map
        fun iv => (f ++ "_" ++ Nat.repr iv.1, iv.2))).map Prod.fst).Nodup := by
  rw [List.map_map]
  have hmm :
      ((List.enumFrom s xs).map (Prod.fst ∘ fun iv => (f ++ "_" ++ Nat.repr iv.1, iv.2)))
        = ((List.enumFrom s xs).map Prod.fst).map fun i => f ++ "_" ++ Nat.repr i := by
    rw [List.map_map]
    rfl
  rw [hmm, List.enumFrom_map_fst]
  exact (List.nodup_range' ..).map fun a b h => paramName_inj f h

theorem enumFrom_map_keys_ne_field (f : String) (xs : List RVal) (s : Nat) :
    plookup ((List.enumFrom s xs).map
      fun iv => (f ++ "_" ++ Nat.repr iv.1, iv.2)) f = none := by
  apply plookup_eq_none_of_keys
  intro kv hm
  obtain ⟨iv, _, rfl⟩ := List.mem_map.mp hm
  exact paramName_ne_field f iv.1

/-! ## Claim C1: the IN operator -/

/-- **C1.** For a condition rule with operator `IN` on field `f` and any
runtime payload (a JS object: no duplicate keys) in which `f` is a
non-empty array, the compiled handler pushes exactly the WHERE fragment
`f IN (:f_0, :f_1, …)` with one indexed placeholder per element, the final
bound-parameter payload binds element `i` under `f_i`, and the original
key `f` is absent from it; in particular for the rule
`(access, IN)` and payload `access = ["a","b"]` the fragment is exactly
`access IN (:access_0, :access_1)` with `access_0 = "a"`,
`access_1 = "b"` and no `access` key in the bound payload. -/
theorem in_operator_binds_indexed_params
    (f : String) (body : Payload) (xs : List RVal)
    (hnd : (body.map Prod.fst).Nodup)
    (hlook : plookup body f = some (.arr xs)) (hne : xs ≠ []) :
    (runConditions [(f, "IN")] body).whereConds
        = [f ++ " IN (" ++
            String.intercalate ", "
              (xs.enum.map fun iv => ":" ++ f ++ "_" ++ Nat.repr iv.1) ++ ")"]
    ∧ (∀ i (hi : i < xs.length),
        plookup (finalPayload (runConditions [(f, "IN")] body))
            (f ++ "_" ++ Nat.repr i) = some (xs.get ⟨i, hi⟩))
    ∧ plookup (finalPayload (runConditions [(f, "IN")] body)) f = none
    ∧ (runConditions [("access", "IN")]
          [("access", .arr [.str "a", .str "b"])]).whereConds
        = ["access IN (:access_0, :access_1)"]
    ∧ finalPayload (runConditions [("access", "IN")]
          [("access", .arr [.str "a", .str "b"])])
        = [("access_0", .str "a"), ("access_1", .str "b")] := by
  have hlen : xs.length > 0 := List.length_pos.mpr hne
  have hstate : runConditions [(f, "IN")] body =
      { payload := peraseKey body f
        whereConds := [f ++ " IN (" ++
          String.intercalate ", "
            (xs.enum.map fun iv => ":" ++ f ++ "_" ++ Nat.repr iv.1) ++ ")"]
        queryParams :=
          xs.enum.foldl
            (fun qp iv => pset qp (f ++ "_" ++ Nat.repr iv.1) iv.2) [] } := by
    show condStep ⟨body, [], []⟩ f "IN" = _
    rw [show condStep ⟨body, [], []⟩ f "IN" = inStep ⟨body, [], []⟩ f from by
      simp [condStep]]
    unfold inStep
    simp only [hlook, hlen, if_pos, List.nil_append]
  have hqp : (runConditions [(f, "IN")] body).queryParams
      = (List.enumFrom 0 xs).map
          (fun iv => (f ++ "_" ++ Nat.repr iv.1, iv.2)) := by
    rw [hstate]
    exact foldl_pset_enumFrom f xs 0 [] fun i _ => rfl
  have hfinal : finalPayload (runConditions [(f, "IN")] body)
      = passign (peraseKey body f)
          ((List.enumFrom 0 xs).map
            (fun iv => (f ++ "_" ++ Nat.repr iv.1, iv.2))) := by
    rw [finalPayload, hqp, hstate]
  refine ⟨by rw [hstate], ?_, ?_, by rfl, by rfl⟩
  · intro i hi
    rw [hfinal, plookup_passign _ _ (enumFrom_map_keys_nodup f xs 0)]
    have := plookup_enumFrom_map f xs 0 i hi
    rw [Nat.zero_add] at this
    rw [this]
  · rw [hfinal, plookup_passign _ _ (enumFrom_map_keys_nodup f xs 0)]
    rw [enumFrom_map_keys_ne_field f xs 0]
    exact plookup_perase_self body f hnd

/-- Witness for C1 at the spec's own example. -/
theorem in_operator_binds_indexed_params_witness :
    (([(("access" : String), RVal.arr [.str "a", .str "b"])].map Prod.fst).Nodup
      ∧ plookup [("access", RVal.arr [.str "a", .str "b"])] "access"
          = some (.arr [.str "a", .str "b"])
      ∧ ([RVal.str "a", .str "b"] ≠ ([] : List RVal)))
    ∧ (runConditions [("access", "IN")]
          [("access", RVal.arr [.str "a", .str "b"])]).whereConds
        = ["access IN (:access_0, :access_1)"] := by
  refine ⟨⟨by decide, rfl, by simp⟩, ?_⟩
  exact (in_operator_binds_indexed_params "access"
    [("access", RVal.arr [.str "a", .str "b"])] [.str "a", .str "b"]
    (by decide) rfl (by simp)).1

/-! ## Claim C2: fragment collection order -/

theorem compareStep_whereConds (st : RState) (f sqlOp : String) :
    (compareStep st f sqlOp).whereConds
      = st.whereConds ++
        (if isDefNonNull (plookup st.payload f) then [f ++ sqlOp ++ f]
         else []) := by
  unfold compareStep
  split <;> simp_all

theorem inStep_whereConds (st : RState) (f : String) :
    (inStep st f).whereConds
      = st.whereConds ++ (activeFragment st.payload f "IN").toList := by
  have hfr : activeFragment st.payload f "IN" =
      match plookup st.payload f with
      | some (.arr xs) =>
        if xs.length > 0 then
          some (f ++ " IN (" ++
            String.intercalate ", "
              (xs.enum.map fun iv => ":" ++ f ++ "_" ++ Nat.repr iv.1) ++ ")")
        else none
      | _ => none := by
    simp [activeFragment]
  rw [hfr]
  unfold inStep
  cases hl : plookup st.payload f with
  | none => simp
  | some v =>
    cases v with
    | arr xs => by_cases hlen : xs.length > 0 <;> simp [hlen]
    | str s => simp
    | num n => simp
    | boolean b => simp
    | null => simp

theorem isNullStep_whereConds (st : RState) (f : String) :
    (isNullStep st f).whereConds
      = st.whereConds ++
        (if plookup st.payload f matches some .null then [f ++ " IS NULL"]
         else []) := by
  unfold isNullStep
  split <;> simp_all

theorem isNotNullStep_whereConds (st : RState) (f : String) :
    (isNotNullStep st f).whereConds
      = st.whereConds ++
        (if plookup st.payload f matches some (.str "NOT_NULL") then
          [f ++ " IS NOT NULL"]
         else []) := by
  unfold isNotNullStep
  split <;> simp_all

theorem likeStep_whereConds (st : RState) (f kw : String) :
    (likeStep st f kw).whereConds
      = st.whereConds ++
        (if isDefNonNull (plookup st.payload f) then
          [f ++ " " ++ kw ++ " :" ++ f]
         else []) := by
  unfold likeStep
  cases hl : plookup st.payload f with
  | none => simp [isDefNonNull]
  | some v => cases v <;> simp [isDefNonNull]

/-- One emitted block appends exactly its active fragment (or nothing) to
`whereConditions`, and the guard/fragment are those described by
`activeFragment` evaluated on the block's incoming payload. -/
theorem condStep_whereConds (st : RState) (f op : String) :
    (condStep st f op).whereConds
      = st.whereConds ++ (activeFragment st.payload f op).toList := by
  unfold condStep
  split_ifs with h1 h2 h3 h4 h5 h6 h7 h8 h9 h10
  · subst h1
    rw [compareStep_whereConds]
    have : activeFragment st.payload f "=" =
        if isDefNonNull (plookup st.payload f) then some (f ++ " = :" ++ f)
        else none := by simp [activeFragment]
    rw [this]
    split <;> simp
  · subst h2
    exact inStep_whereConds st f
  · subst h3
    rw [isNullStep_whereConds]
    have : activeFragment st.payload f "IS NULL" =
        if plookup st.payload f matches some .null then
          some (f ++ " IS NULL")
        else none := by simp [activeFragment]
    rw [this]
    split <;> simp
  · subst h4
    rw [isNotNullStep_whereConds]
    have : activeFragment st.payload f "IS NOT NULL" =
        if plookup st.payload f matches some (.str "NOT_NULL") then
          some (f ++ " IS NOT NULL")
        else none := by simp [activeFragment]
    rw [this]
    split <;> simp
  · subst h5
    rw [likeStep_whereConds]
    have : activeFragment st.payload f "LIKE" =
        if isDefNonNull (plookup st.payload f) then some (f ++ " LIKE :" ++ f)
        else none := by simp [activeFragment]
    rw [this]
    split <;> simp [String.append_assoc]
  · subst h6
    rw [likeStep_whereConds]
    have : activeFragment st.payload f "ILIKE" =
        if isDefNonNull (plookup st.payload f) then some (f ++ " ILIKE :" ++ f)
        else none := by simp [activeFragment]
    rw [this]
    split <;> simp [String.append_assoc]
  · subst h7
    rw [compareStep_whereConds]
    have : activeFragment st.payload f ">=" =
        if isDefNonNull (plookup st.payload f) then some (f ++ " >= :" ++ f)
        else none := by simp [activeFragment]
    rw [this]
    split <;> simp
  · subst h8
    rw [compareStep_whereConds]
    have : activeFragment st.payload f "<=" =
        if isDefNonNull (plookup st.payload f) then some (f ++ " <= :" ++ f)
        else none := by simp [activeFragment]
    rw [this]
    split <;> simp
  · subst h9
    rw [compareStep_whereConds]
    have : activeFragment st.payload f ">" =
        if isDefNonNull (plookup st.payload f) then some (f ++ " > :" ++ f)
        else none := by simp [activeFragment]
    rw [this]
    split <;> simp
  · subst h10
    rw [compareStep_whereConds]
    have : activeFragment st.payload f "<" =
        if isDefNonNull (plookup st.payload f) then some (f ++ " < :" ++ f)
        else none := by simp [activeFragment]
    rw [this]
    split <;> simp
  · rw [compareStep_whereConds]
    have : activeFragment st.payload f op =
        if isDefNonNull (plookup st.payload f) then some (f ++ " = :" ++ f)
        else none := by
      simp [activeFragment, h1, h2, h3, h4, h5, h6, h7, h8, h9, h10]
    rw [this]
    split <;> simp

/-- One emitted block only ever touches its own payload key. -/
theorem condStep_payload_other (st : RState) (f op g : String) (hg : g ≠ f) :
    plookup (condStep st f op).payload g = plookup st.payload g := by
  have hcmp : ∀ sqlOp, plookup (compareStep st f sqlOp).payload g
      = plookup st.payload g := by
    intro sqlOp
    unfold compareStep
    split <;> rfl
  have hin : plookup (inStep st f).payload g = plookup st.payload g := by
    unfold inStep
    cases hl : plookup st.payload f with
    | none => rfl
    | some v =>
      cases v with
      | arr xs =>
        by_cases hlen : xs.length > 0 <;>
          simp [hlen, plookup_perase_other _ _ _ hg]
      | str s => rfl
      | num n => rfl
      | boolean b => rfl
      | null => rfl
  have hnull : plookup (isNullStep st f).payload g = plookup st.payload g := by
    unfold isNullStep
    split <;> simp [plookup_perase_other _ _ _ hg]
  have hnotnull : plookup (isNotNullStep st f).payload g
      = plookup st.payload g := by
    unfold isNotNullStep
    split <;> simp [plookup_perase_other _ _ _ hg]
  have hlike : ∀ kw, plookup (likeStep st f kw).payload g
      = plookup st.payload g := by
    intro kw
    unfold likeStep
    cases hl : plookup st.payload f with
    | none => rfl
    | some v => cases v <;> simp [plookup_perase_other _ _ _ hg]
  unfold condStep
  by_cases h1 : op = "="
  · rw [if_pos h1]; exact hcmp _
  rw [if_neg h1]
  by_cases h2 : op = "IN"
  · rw [if_pos h2]; exact hin
  rw [if_neg h2]
  by_cases h3 : op = "IS NULL"
  · rw [if_pos h3]; exact hnull
  rw [if_neg h3]
  by_cases h4 : op = "IS NOT NULL"
  · rw [if_pos h4]; exact hnotnull
  rw [if_neg h4]
  by_cases h5 : op = "LIKE"
  · rw [if_pos h5]; exact hlike _
  rw [if_neg h5]
  by_cases h6 : op = "ILIKE"
  · rw [if_pos h6]; exact hlike _
  rw [if_neg h6]
  by_cases h7 : op = ">="
  · rw [if_pos h7]; exact hcmp _
  rw [if_neg h7]
  by_cases h8 : op = "<="
  · rw [if_pos h8]; exact hcmp _
  rw [if_neg h8]
  by_cases h9 : op = ">"
  · rw [if_pos h9]; exact hcmp _
  rw [if_neg h9]
  by_cases h10 : op = "<"
  · rw [if_pos h10]; exact hcmp _
  rw [if_neg h10]
  exact hcmp _

/-- Folding the emitted blocks collects exactly the active fragments, in
declaration order, evaluated against the original body. -/
theorem foldl_condStep_whereConds :
    ∀ (conds : List (String × String)) (st : RState) (body : Payload),
      (conds.map Prod.fst).Nodup →
      (∀ g ∈ conds.map Prod.fst, plookup st.payload g = plookup body g) →
      (conds.foldl (fun s fc => condStep s fc.1 fc.2) st).whereConds
        = st.whereConds ++
            conds.filterMap (fun fc => activeFragment body fc.1 fc.2) := by
  intro conds
  induction conds with
  | nil => intro st body _ _; simp
  | cons fc rest ih =>
    obtain ⟨f, op⟩ := fc
    intro st body hnd hagree
    simp only [List.map, List.nodup_cons] at hnd
    simp only [List.foldl, List.filterMap]
    rw [ih (condStep st f op) body hnd.2 ?agree]
    · rw [condStep_whereConds]
      have hcongr : activeFragment st.payload f op
          = activeFragment body f op := by
        have hl : plookup st.payload f = plookup body f :=
          hagree f (by simp)
        simp only [activeFragment, hl]
      rw [hcongr]
      cases activeFragment body f op <;> simp [Option.toList]
    case agree =>
      intro g hg
      rw [condStep_payload_other st f op g
        (fun he => hnd.1 (he ▸ hg))]
      exact hagree g (by simp [hg])

/-- **C2.** For every conditions map (distinct field names, as JS object
keys are) and every runtime payload: the collected WHERE fragments are
exactly the active ones, joined with `" AND "` in the declaration order of
the map; an inactive rule contributes nothing; and when no fragment is
active the WHERE clause is exactly `1=1`. -/
theorem fragments_join_declaration_order
    (conds : List (String × String)) (body : Payload)
    (hnd : (conds.map Prod.fst).Nodup) :
    (runConditions conds body).whereConds
        = conds.filterMap (fun fc => activeFragment body fc.1 fc.2)
    ∧ dynamicWhere (runConditions conds body)
        = (if conds.filterMap (fun fc => activeFragment body fc.1 fc.2) = []
           then "1=1"
           else String.intercalate " AND "
             (conds.filterMap fun fc => activeFragment body fc.1 fc.2)) := by
  have hw : (runConditions conds body).whereConds
      = conds.filterMap (fun fc => activeFragment body fc.1 fc.2) := by
    have := foldl_condStep_whereConds conds ⟨body, [], []⟩ body hnd
      (fun g _ => rfl)
    simpa [runConditions] using this
  refine ⟨hw, ?_⟩
  rw [dynamicWhere, hw]
  rcases h : conds.filterMap (fun fc => activeFragment body fc.1 fc.2) with
    _ | ⟨a, rest⟩ <;> simp only [h] <;> simp

/-- Witness for C2: two rules, one active, one inactive. -/
theorem fragments_join_declaration_order_witness :
    (([(("name" : String), ("=" : String)), ("access", "IN")].map
        Prod.fst).Nodup)
    ∧ (runConditions [("name", "="), ("access", "IN")]
          [("name", RVal.str "x")]).whereConds = ["name = :name"]
    ∧ dynamicWhere (runConditions [("name", "="), ("access", "IN")]
          ([] : Payload)) = "1=1" := by
  refine ⟨by decide, ?_, ?_⟩
  · have := (fragments_join_declaration_order
      [("name", "="), ("access", "IN")] [("name", RVal.str "x")]
      (by decide)).1
    rw [this]
    rfl
  · have := (fragments_join_declaration_order
      [("name", "="), ("access", "IN")] ([] : Payload) (by decide)).2
    rw [this]
    rfl

/-! ## Claim C3: a missing token does not abort compilation -/

/-- **C3 counterexample.** For a route with the non-empty conditions map
`[(name, =)]` and base query `SELECT id FROM things` (no
`\x7bdynamic_conditions\x7d` token), the source compiler does **not** fail:
it silently emits the static handler body quoting the base query verbatim —
while the spec-described fallible compile would fail with a
`TemplateMismatchError`. -/
theorem missing_token_counterexample :
    generateDynamicQueryLogic tokenlessRoute
        = "    const payload = body;\n    const query = \"SELECT id FROM things\";"
    ∧ generateDynamicQueryLogicSpec tokenlessRoute
        = .error .templateMismatch := by
  exact ⟨rfl, rfl⟩

/-- **C3 amended.** For every route whose handler has a (non-empty)
conditions map but whose base query does not contain the
`\x7bdynamic_conditions\x7d` token, compilation does not fail and emits no
`TemplateMismatchError` (no such error exists in the source): the compiler
silently emits the static handler body
`const payload = body; const query = "<base query>";`. -/
theorem missing_token_emits_static_handler (route : RouteDef)
    (conds : List (String × String)) (hne : conds ≠ [])
    (hc : route.handler.conditions = some conds)
    (hq : containsSubstr route.handler.query dynamicToken = false) :
    generateDynamicQueryLogic route
      = "    const payload = body;\n    const query = \"" ++
        route.handler.query ++ "\";" := by
  unfold generateDynamicQueryLogic
  rw [hc]
  simp [hq]

/-- Witness for the amended C3 at the counterexample route. -/
theorem missing_token_emits_static_handler_witness :
    (([(("name" : String), ("=" : String))] ≠ [])
      ∧ tokenlessRoute.handler.conditions = some [("name", "=")]
      ∧ containsSubstr tokenlessRoute.handler.query dynamicToken = false)
    ∧ generateDynamicQueryLogic tokenlessRoute
        = "    const payload = body;\n    const query = \"" ++
          tokenlessRoute.handler.query ++ "\";" := by
  refine ⟨⟨by simp, rfl, by decide⟩, ?_⟩
  exact missing_token_emits_static_handler tokenlessRoute [("name", "=")]
    (by simp) rfl (by decide)

/-! ## Claim C10: nameless routes collide on `undefinedPayloadSchema` -/

/-- **C10.** A route without a `name` field (absent from the declared
`IRouteConfig`) gets the emitted schema constant `undefinedPayloadSchema`;
hence any two such routes in one module emit colliding constant
declarations.  Concretely, two nameless payload-less routes both emit
exactly `const undefinedPayloadSchema = t.Object(\x7b\x7d);`. -/
theorem nameless_routes_collide
    (r1 r2 : RouteDef) (h1 : r1.name = none) (h2 : r2.name = none) :
    jsTemplateName r1.name ++ "PayloadSchema" = "undefinedPayloadSchema"
    ∧ jsTemplateName r1.name ++ "PayloadSchema"
        = jsTemplateName r2.name ++ "PayloadSchema"
    ∧ (∃ rest1, generateSchemaConstant r1
        = "const undefinedPayloadSchema = t.Object(" ++ rest1)
    ∧ (∃ rest2, generateSchemaConstant r2
        = "const undefinedPayloadSchema = t.Object(" ++ rest2)
    ∧ generateSchemaConstant namelessRoute1
        = "const undefinedPayloadSchema = t.Object(\x7b\x7d);"
    ∧ generateSchemaConstant namelessRoute2
        = "const undefinedPayloadSchema = t.Object(\x7b\x7d);" := by
  have hname : ∀ r : RouteDef, r.name = none →
      ∃ rest, generateSchemaConstant r
        = "const undefinedPayloadSchema = t.Object(" ++ rest := by
    intro r hr
    unfold generateSchemaConstant
    rw [hr]
    cases hp : r.payload with
    | none => exact ⟨"\x7b\x7d);", by decide⟩
    | some fields =>
      dsimp only
      by_cases hf : fields.isEmpty
      · rw [if_pos hf]
        exact ⟨"\x7b\x7d);", by decide⟩
      · rw [if_neg hf]
        refine ⟨"\x7b\n" ++
          String.intercalate ",\n" (fields.map fun kv =>
            let typeMethod := getElysiaTypeMethod kv.2.type kv.2
            let options :=
              if isArrayType kv.2.type then "" else generateTypeOptions kv.2
            let typeWithOptions :=
              if isArrayType kv.2.type then typeMethod
              else typeMethod ++ "(" ++ options ++ ")"
            let optionalWrapper :=
              if kv.2.optional then "t.Optional(" ++ typeWithOptions ++ ")"
              else typeWithOptions
            "  " ++ kv.1 ++ ": " ++ optionalWrapper) ++ "\n\x7d);", ?_⟩
        have hlit : (jsTemplateName none ++ "PayloadSchema")
            = "undefinedPayloadSchema" := by decide
        rw [hlit]
        have hpre : ("const " ++ "undefinedPayloadSchema" ++ " = t.Object(\x7b\n" : String)
            = "const undefinedPayloadSchema = t.Object(" ++ "\x7b\n" := by decide
        apply String.ext
        simp only [String.data_append]
        have := congrArg String.data hpre
        simp only [String.data_append] at this
        simp only [← List.append_assoc] at this ⊢
        rw [this]
  refine ⟨by rw [h1]; decide, by rw [h1, h2], hname r1 h1, hname r2 h2, rfl, rfl⟩

/-! ## Claim C8: spec loading failure modes -/

/-- **C8.** Spec loading fails when the document is not valid JSON
(`JSON.parse` throws), and also fails when the document is a JSON object
missing `module`, `version`, or `routes` (the TypeError thrown by
`path.join` on a non-string argument, resp. by `.map` on a non-array —
these runtime throws realize the spec's SpecParseError failure kind). -/
theorem spec_loading_fails (fields : List (String × JsonValue)) :
    processJsonFile .invalid = .error .syntaxErr
    ∧ (lookupJ fields "module" = none →
        ∃ msg, processJsonFile (.valid (.obj fields)) = .error (.typeErr msg))
    ∧ (lookupJ fields "version" = none →
        ∃ msg, processJsonFile (.valid (.obj fields)) = .error (.typeErr msg))
    ∧ (lookupJ fields "routes" = none →
        ∃ msg, processJsonFile (.valid (.obj fields)) = .error (.typeErr msg)) := by
  refine ⟨rfl, ?_, ?_, ?_⟩
  · intro hm
    refine ⟨"The path argument must be of type string", ?_⟩
    simp [processJsonFile, jsonParse, jsGetField, hm, requirePathString,
      bind, Except.bind]
  · intro hv
    cases hm : lookupJ fields "module" with
    | none =>
      refine ⟨"The path argument must be of type string", ?_⟩
      simp [processJsonFile, jsonParse, jsGetField, hm, requirePathString,
        bind, Except.bind]
    | some mv =>
      cases mv <;>
        first
        | (refine ⟨"The path argument must be of type string", ?_⟩
           simp [processJsonFile, jsonParse, jsGetField, hm, hv,
             requirePathString, bind, Except.bind])
  · intro hr
    cases hm : lookupJ fields "module" with
    | none =>
      refine ⟨"The path argument must be of type string", ?_⟩
      simp [processJsonFile, jsonParse, jsGetField, hm, requirePathString,
        bind, Except.bind]
    | some mv =>
      cases hv : lookupJ fields "version" with
      | none =>
        cases mv <;>
          first
          | (refine ⟨"The path argument must be of type string", ?_⟩
             simp [processJsonFile, jsonParse, jsGetField, hm, hv,
               requirePathString, bind, Except.bind])
      | some vv =>
        cases mv <;> cases vv <;>
          first
          | (refine ⟨"The path argument must be of type string", ?_⟩
             simp [processJsonFile, jsonParse, jsGetField, hm, hv,
               requirePathString, bind, Except.bind]
             done)
          | (refine ⟨"config.routes.map is not a function", ?_⟩
             simp [processJsonFile, jsonParse, jsGetField, hm, hv, hr,
               requirePathString, requireRoutesArray, bind, Except.bind,
               Functor.map, Except.map]
             done)

/-- Witness for C8: a document with `module`/`version` but no `routes`,
and one with no `module`. -/
theorem spec_loading_fails_witness :
    (lookupJ [(("module" : String), JsonValue.str "users"),
        ("version", JsonValue.str "v1")] "routes" = none)
    ∧ (∃ msg, processJsonFile (.valid (.obj
        [("module", JsonValue.str "users"), ("version", JsonValue.str "v1")]))
        = .error (.typeErr msg)) := by
  refine ⟨rfl, ?_⟩
  exact (spec_loading_fails
    [("module", JsonValue.str "users"), ("version", JsonValue.str "v1")]).2.2.2
    rfl

/-! ## Substring (`includes`) lemmas -/

theorem infixOfChars_iff (pat : List Char) :
    ∀ cs, infixOfChars pat cs = true ↔ ∃ u v, cs = u ++ pat ++ v := by
  intro cs
  induction cs with
  | nil =>
    simp only [infixOfChars, List.isEmpty_iff]
    constructor
    · intro h
      exact ⟨[], [], by simp [h]⟩
    · rintro ⟨u, v, h⟩
      have := h.symm
      simp only [List.append_assoc, List.append_eq_nil] at this
      exact this.2.1
  | cons c rest ih =>
    simp only [infixOfChars, Bool.or_eq_true, List.isPrefixOf_iff_prefix, ih]
    constructor
    · rintro (⟨t, ht⟩ | ⟨u, v, hv⟩)
      · exact ⟨[], t, by simp [ht.symm]⟩
      · exact ⟨c :: u, v, by simp [hv]⟩
    · rintro ⟨u, v, h⟩
      cases u with
      | nil =>
        left
        exact ⟨v, by simpa using h.symm⟩
      | cons u0 us =>
        right
        refine ⟨us, v, ?_⟩
        simpa using congrArg List.tail h

theorem containsSubstr_iff (s pat : String) :
    containsSubstr s pat = true ↔ ∃ u v, s = u ++ pat ++ v := by
  rw [containsSubstr, infixOfChars_iff]
  constructor
  · rintro ⟨u, v, h⟩
    refine ⟨String.mk u, String.mk v, ?_⟩
    apply String.ext
    simpa using h
  · rintro ⟨u, v, rfl⟩
    exact ⟨u.data, v.data, by simp⟩

theorem containsSubstr_of_decomp {s u pat v : String}
    (h : s = u ++ pat ++ v) : containsSubstr s pat = true :=
  (containsSubstr_iff s pat).mpr ⟨u, v, h⟩

/-- A substring of an infix is a substring of the whole. -/
theorem containsSubstr_trans {s t pat : String}
    (hst : ∃ u v, s = u ++ t ++ v) (htp : containsSubstr t pat = true) :
    containsSubstr s pat = true := by
  obtain ⟨u, v, rfl⟩ := hst
  obtain ⟨a, b, rfl⟩ := (containsSubstr_iff t pat).mp htp
  exact containsSubstr_of_decomp
    (show u ++ (a ++ pat ++ b) ++ v = (u ++ a) ++ pat ++ (b ++ v) by
      simp [String.append_assoc])

/-- Every member of an intercalated list appears contiguously in the
result. -/
theorem intercalate_mem_decomp (sep : String) :
    ∀ (l : List String) (x : String), x ∈ l →
      ∃ u v, String.intercalate sep l = u ++ x ++ v := by
  have hgo : ∀ (as : List String) (acc : String),
      (∃ v, String.intercalate.go acc sep as = acc ++ v)
      ∧ (∀ x ∈ as, ∃ u v, String.intercalate.go acc sep as = u ++ x ++ v) := by
    intro as
    induction as with
    | nil =>
      intro acc
      refine ⟨⟨"", ?_⟩, by simp⟩
      simp [String.intercalate.go]
    | cons a rest ih =>
      intro acc
      have hstep : String.intercalate.go acc sep (a :: rest)
          = String.intercalate.go (acc ++ sep ++ a) sep rest := rfl
      constructor
      · obtain ⟨v, hv⟩ := (ih (acc ++ sep ++ a)).1
        refine ⟨sep ++ a ++ v, ?_⟩
        rw [hstep, hv]
        simp [String.append_assoc]
      · intro x hx
        rcases List.mem_cons.mp hx with rfl | hx
        · obtain ⟨v, hv⟩ := (ih (acc ++ sep ++ x)).1
          refine ⟨acc ++ sep, v, ?_⟩
          rw [hstep, hv]
        · obtain ⟨u, v, huv⟩ := (ih (acc ++ sep ++ a)).2 x hx
          exact ⟨u, v, by rw [hstep, huv]⟩
  intro l x hx
  cases l with
  | nil => simp at hx
  | cons a rest =>
    rcases List.mem_cons.mp hx with rfl | hx
    · obtain ⟨v, hv⟩ := (hgo rest x).1
      exact ⟨"", v, by simpa [String.intercalate] using hv⟩
    · obtain ⟨u, v, huv⟩ := (hgo rest a).2 x hx
      exact ⟨u, v, by simpa [String.intercalate] using huv⟩

/-! ## Claim C7: path-parameter validation schema -/

theorem generateParamsValidation_decomp (ps : List String) (hne : ps ≠ []) :
    Legacy.generateParamsValidation ps
      = "\n    params: t.Object(\x7b\n" ++
        String.intercalate ",\n" (ps.map fun param =>
          if param = "id" then
            "      " ++ param ++
            ": t.String(\x7b\n        format: \"uuid\",\n        description: \"" ++
            jsCapitalize param ++ " ID\",\n      \x7d)"
          else
            "      " ++ param ++ ": t.String(\x7b\n        description: \"" ++
            jsCapitalize param ++ "\",\n      \x7d)") ++
        "\n    \x7d)" := by
  unfold Legacy.generateParamsValidation
  rw [if_neg (by simpa [List.isEmpty_iff] using hne)]

theorem generateParamsValidation_contains_entry
    (ps : List String) (p : String) (hp : p ∈ ps) :
    containsSubstr (Legacy.generateParamsValidation ps)
      (if p = "id" then
        "      " ++ p ++
        ": t.String(\x7b\n        format: \"uuid\",\n        description: \"" ++
        jsCapitalize p ++ " ID\",\n      \x7d)"
       else
        "      " ++ p ++ ": t.String(\x7b\n        description: \"" ++
        jsCapitalize p ++ "\",\n      \x7d)") = true := by
  have hne : ps ≠ [] := fun h => by simp [h] at hp
  rw [generateParamsValidation_decomp ps hne]
  have hmem := List.mem_map_of_mem (fun param =>
    if param = "id" then
      "      " ++ param ++
      ": t.String(\x7b\n        format: \"uuid\",\n        description: \"" ++
      jsCapitalize param ++ " ID\",\n      \x7d)"
    else
      "      " ++ param ++ ": t.String(\x7b\n        description: \"" ++
      jsCapitalize param ++ "\",\n      \x7d)") hp
  obtain ⟨u, v, huv⟩ := intercalate_mem_decomp ",\n" _ _ hmem
  apply containsSubstr_of_decomp
    (u := "\n    params: t.Object(\x7b\n" ++ u) (v := v ++ "\n    \x7d)")
  rw [huv]
  simp [String.append_assoc]

theorem generateParamsValidation_ne_empty (ps : List String) (hne : ps ≠ []) :
    Legacy.generateParamsValidation ps ≠ "" := by
  rw [generateParamsValidation_decomp ps hne]
  intro h
  have := congrArg String.length h
  simp only [String.length_append] at this
  have h24 : ("\n    params: t.Object(\x7b\n" : String).length = 24 := by decide
  have h0 : ("" : String).length = 0 := by decide
  omega

theorem generateRouteMethod_contains_params
    (route : RouteDef) (moduleName : String)
    (hne : Legacy.extractPathParams route.path ≠ []) :
    ∃ u v, Legacy.generateRouteMethod route moduleName
      = u ++ Legacy.generateParamsValidation
          (Legacy.extractPathParams route.path) ++ v := by
  have hpv := generateParamsValidation_ne_empty _ hne
  unfold Legacy.generateRouteMethod
  dsimp only
  rw [if_pos hpv]
  refine ⟨"  ." ++ route.method.toLower ++ "(\"" ++ route.path ++ "\", (" ++
    (if (Legacy.extractPathParams route.path).length > 0 then
      "\x7b params: \x7b " ++
        String.intercalate ", " (Legacy.extractPathParams route.path) ++
      " \x7d\x7d"
     else "\x7b\x7d") ++ ") => \x7b\n    return findOneById(" ++
    (if (Legacy.extractPathParams route.path).length > 0 then
      String.intercalate ", " (Legacy.extractPathParams route.path) ++
        ", \"" ++ route.handler.query ++ "\""
     else "\"" ++ route.handler.query ++ "\"") ++ ");\n  \x7d" ++ ", \x7b",
    ",\n    detail: \x7b\n      summary: \"" ++ route.openapi.summary ++
    "\",\n      description: \"" ++ route.openapi.description ++
    "\",\n      tags: [\"" ++ String.intercalate "\", \"" route.openapi.tags ++
    "\"],\n    \x7d" ++ "\n  \x7d" ++ ")", ?_⟩
  apply String.ext
  simp [String.data_append, List.append_assoc]

/-- **C7.** Under the path-based emitter (src/api-builder/index.ts): every
route whose path has parameter segments gets a handler carrying the
parameter-validation schema; a segment literally named `id` is constrained
to UUID format with description `"Id ID"`, and any other segment gets only
a capitalized description; in particular `"/:id"` yields a UUID-constrained
`id` and `"/:slug"` a `slug` with no format constraint. -/
theorem path_param_schema_uuid_for_id
    (route : RouteDef) (moduleName : String) (ps : List String) (p : String) :
    (Legacy.extractPathParams route.path ≠ [] →
      containsSubstr (Legacy.generateRouteMethod route moduleName)
        "params: t.Object(\x7b" = true)
    ∧ ("id" ∈ ps →
        containsSubstr (Legacy.generateParamsValidation ps)
          "      id: t.String(\x7b\n        format: \"uuid\",\n        description: \"Id ID\",\n      \x7d)"
          = true)
    ∧ (p ∈ ps → p ≠ "id" →
        containsSubstr (Legacy.generateParamsValidation ps)
          ("      " ++ p ++ ": t.String(\x7b\n        description: \"" ++
            jsCapitalize p ++ "\",\n      \x7d)") = true)
    ∧ Legacy.extractPathParams "/:id" = ["id"]
    ∧ Legacy.generateParamsValidation ["id"]
        = "\n    params: t.Object(\x7b\n      id: t.String(\x7b\n        format: \"uuid\",\n        description: \"Id ID\",\n      \x7d)\n    \x7d)"
    ∧ Legacy.extractPathParams "/:slug" = ["slug"]
    ∧ Legacy.generateParamsValidation ["slug"]
        = "\n    params: t.Object(\x7b\n      slug: t.String(\x7b\n        description: \"Slug\",\n      \x7d)\n    \x7d)"
    ∧ containsSubstr (Legacy.generateParamsValidation ["slug"]) "format:"
        = false := by
  refine ⟨?_, ?_, ?_, by rfl, by rfl, by rfl, by rfl, by decide⟩
  · intro hne
    obtain ⟨u, v, huv⟩ := generateRouteMethod_contains_params route moduleName hne
    apply containsSubstr_trans ⟨u, v, huv⟩
    rw [generateParamsValidation_decomp _ hne]
    apply containsSubstr_of_decomp (u := "\n    ")
      (v := "\n" ++ String.intercalate ",\n" ((Legacy.extractPathParams route.path).map fun param =>
          if param = "id" then
            "      " ++ param ++
            ": t.String(\x7b\n        format: \"uuid\",\n        description: \"" ++
            jsCapitalize param ++ " ID\",\n      \x7d)"
          else
            "      " ++ param ++ ": t.String(\x7b\n        description: \"" ++
            jsCapitalize param ++ "\",\n      \x7d)") ++ "\n    \x7d)")
    apply String.ext
    simp only [String.data_append]
    simp [List.append_assoc]
  · intro hid
    have := generateParamsValidation_contains_entry ps "id" hid
    simpa using this
  · intro hp hpid
    have := generateParamsValidation_contains_entry ps p hp
    rwa [if_neg hpid] at this

/-- Witness for C7 at `"/:id"` and `"/:slug"`. -/
theorem path_param_schema_uuid_for_id_witness :
    (Legacy.extractPathParams "/:id" ≠ [] ∧ ("id" : String) ∈ ["id"]
      ∧ ("slug" : String) ∈ ["slug"] ∧ ("slug" : String) ≠ "id")
    ∧ containsSubstr (Legacy.generateParamsValidation ["id"])
        "      id: t.String(\x7b\n        format: \"uuid\",\n        description: \"Id ID\",\n      \x7d)"
        = true
    ∧ containsSubstr (Legacy.generateParamsValidation ["slug"])
        ("      " ++ "slug" ++ ": t.String(\x7b\n        description: \"" ++
          jsCapitalize "slug" ++ "\",\n      \x7d)") = true := by
  refine ⟨⟨by decide, by simp, by simp, by decide⟩, ?_, ?_⟩
  · exact (path_param_schema_uuid_for_id namelessRoute1 "m" ["id"] "x").2.1
      (by simp)
  · exact (path_param_schema_uuid_for_id namelessRoute1 "m" ["slug"]
      "slug").2.2.1 (by simp) (by decide)

/-! ## split / join lemmas -/

theorem splitChars_ne_nil (cs : List Char) : splitChars cs ≠ [] := by
  cases cs with
  | nil => simp [splitChars]
  | cons c rest =>
    simp only [splitChars]
    cases hs : splitChars rest with
    | nil => simp
    | cons h t =>
      dsimp only
      by_cases hc : c = '\n' <;> simp [hc]

theorem splitChars_cons_eq (c : Char) (rest : List Char) :
    splitChars (c :: rest)
      = if c = '\n' then [] :: splitChars rest
        else (c :: (splitChars rest).headI) :: (splitChars rest).tail := by
  simp only [splitChars]
  cases hs : splitChars rest with
  | nil => exact absurd hs (splitChars_ne_nil rest)
  | cons h t =>
    dsimp only
    by_cases hc : c = '\n' <;> simp [hc]

theorem joinChars_splitChars (cs : List Char) :
    joinChars (splitChars cs) = cs := by
  induction cs with
  | nil => rfl
  | cons c rest ih =>
    rw [splitChars_cons_eq]
    cases hs : splitChars rest with
    | nil => exact absurd hs (splitChars_ne_nil rest)
    | cons h t =>
      rw [hs] at ih
      by_cases hc : c = '\n'
      · subst hc
        rw [if_pos rfl]
        show '\n' :: joinChars (h :: t) = '\n' :: rest
        rw [ih]
      · rw [if_neg hc]
        dsimp only [List.headI, List.tail]
        cases t with
        | nil =>
          show c :: h = c :: rest
          rw [show joinChars [h] = h from rfl] at ih
          rw [ih]
        | cons m t2 =>
          show (c :: h) ++ '\n' :: joinChars (m :: t2) = c :: rest
          rw [List.cons_append]
          rw [show h ++ '\n' :: joinChars (m :: t2)
            = joinChars (h :: m :: t2) from rfl, ih]

theorem mem_splitChars_no_newline (cs : List Char) :
    ∀ l ∈ splitChars cs, '\n' ∉ l := by
  induction cs with
  | nil =>
    intro l hl
    simp [splitChars] at hl
    simp [hl]
  | cons c rest ih =>
    intro l hl
    rw [splitChars_cons_eq] at hl
    cases hs : splitChars rest with
    | nil => exact absurd hs (splitChars_ne_nil rest)
    | cons h t =>
      rw [hs] at hl
      by_cases hc : c = '\n'
      · subst hc
        rw [if_pos rfl] at hl
        rcases List.mem_cons.mp hl with rfl | hl
        · simp
        · exact ih l (hs ▸ hl)
      · rw [if_neg hc] at hl
        dsimp only [List.headI, List.tail] at hl
        rcases List.mem_cons.mp hl with rfl | hl
        · intro hmem
          rcases List.mem_cons.mp hmem with he | hmem
          · exact hc he.symm
          · exact ih h (hs ▸ List.mem_cons_self h t) hmem
        · exact ih l (hs ▸ List.mem_cons_of_mem h hl)

theorem splitChars_joinChars (ls : List (List Char)) (hne : ls ≠ [])
    (hnl : ∀ l ∈ ls, '\n' ∉ l) : splitChars (joinChars ls) = ls := by
  induction ls with
  | nil => exact absurd rfl hne
  | cons l rest ih =>
    have hl : '\n' ∉ l := hnl l (List.mem_cons_self l rest)
    cases rest with
    | nil =>
      show splitChars (joinChars [l]) = [l]
      rw [show joinChars [l] = l from rfl]
      clear ih hne hnl
      induction l with
      | nil => rfl
      | cons c cs ihc =>
        have hc : c ≠ '\n' := fun h => hl (h ▸ List.mem_cons_self c cs)
        have hcs : '\n' ∉ cs := fun h => hl (List.mem_cons_of_mem c h)
        rw [splitChars_cons_eq, if_neg hc, ihc hcs]
        rfl
    | cons m rest2 =>
      rw [show joinChars (l :: m :: rest2)
        = l ++ '\n' :: joinChars (m :: rest2) from rfl]
      have ihrest : splitChars (joinChars (m :: rest2)) = m :: rest2 :=
        ih (by simp) (fun x hx => hnl x (List.mem_cons_of_mem l hx))
      clear ih hne hnl
      induction l with
      | nil =>
        rw [List.nil_append, splitChars_cons_eq, if_pos rfl, ihrest]
      | cons c cs ihc =>
        have hc : c ≠ '\n' := fun h => hl (h ▸ List.mem_cons_self c cs)
        have hcs : '\n' ∉ cs := fun h => hl (List.mem_cons_of_mem c h)
        rw [List.cons_append, splitChars_cons_eq, if_neg hc, ihc hcs]
        rfl

theorem splitLines_ne_nil (s : String) : splitLines s ≠ [] := by
  simp only [splitLines]
  intro h
  exact splitChars_ne_nil s.data (by simpa using h)

theorem map_data_map_mk (ls : List (List Char)) :
    (ls.map String.mk).map String.data = ls := by
  rw [List.map_map]
  apply List.map_id''
  intro l
  rfl

theorem map_mk_map_data (ls : List String) :
    (ls.map String.data).map String.mk = ls := by
  rw [List.map_map]
  apply List.map_id''
  intro l
  rfl

theorem joinLines_splitLines (s : String) : joinLines (splitLines s) = s := by
  apply String.ext
  show joinChars (((splitChars s.data).map String.mk).map String.data) = s.data
  rw [map_data_map_mk, joinChars_splitChars]

theorem mem_splitLines_no_newline (s : String) :
    ∀ l ∈ splitLines s, '\n' ∉ l.data := by
  intro l hl
  simp only [splitLines, List.mem_map] at hl
  obtain ⟨cs, hcs, rfl⟩ := hl
  exact mem_splitChars_no_newline s.data cs hcs

theorem splitLines_joinLines (ls : List String) (hne : ls ≠ [])
    (hnl : ∀ l ∈ ls, '\n' ∉ l.data) : splitLines (joinLines ls) = ls := by
  show (splitChars ((String.mk (joinChars (ls.map String.data))).data)).map
      String.mk = ls
  rw [show (String.mk (joinChars (ls.map String.data))).data
    = joinChars (ls.map String.data) from rfl]
  rw [splitChars_joinChars (ls.map String.data)
    (by simpa using hne)
    (by
      intro l hl
      obtain ⟨x, hx, rfl⟩ := List.mem_map.mp hl
      exact hnl x hx)]
  exact map_mk_map_data ls

/-! ## Aggregator-parse record lemmas -/

theorem snd_mem_of_mem_enumFrom {α : Type} :
    ∀ {l : List α} {n : Nat} {p : Nat × α}, p ∈ List.enumFrom n l → p.2 ∈ l := by
  intro l
  induction l with
  | nil => intro n p h; simp [List.enumFrom] at h
  | cons a rest ih =>
    intro n p h
    rcases List.mem_cons.mp h with rfl | h
    · simp
    · exact List.mem_cons_of_mem a (ih h)

theorem exists_mem_enumFrom_of_mem {α : Type} :
    ∀ {l : List α} {a : α}, a ∈ l → ∀ n, ∃ i, (i, a) ∈ List.enumFrom n l := by
  intro l
  induction l with
  | nil => intro a h; simp at h
  | cons b rest ih =>
    intro a h n
    rcases List.mem_cons.mp h with rfl | h
    · exact ⟨n, List.mem_cons_self _ _⟩
    · obtain ⟨i, hi⟩ := ih h (n + 1)
      exact ⟨i, List.mem_cons_of_mem _ hi⟩

theorem fst_lt_of_mem_enumFrom {α : Type} :
    ∀ {l : List α} {n : Nat} {p : Nat × α},
      p ∈ List.enumFrom n l → p.1 < n + l.length := by
  intro l
  induction l with
  | nil => intro n p h; simp [List.enumFrom] at h
  | cons a rest ih =>
    intro n p h
    rcases List.mem_cons.mp h with rfl | h
    · simp
    · have := ih h
      simp only [List.length_cons]
      omega

/-- A matching import record exists iff some line parses to the variable. -/
theorem imports_any_var_iff (c : String) (var : String) :
    ((parseIndexInfo c).imports.any fun r => r.variableName = var) = true
      ↔ ∃ l ∈ splitLines c, ∃ p, parseImportLine l = some (var, p) := by
  simp only [parseIndexInfo, List.any_eq_true]
  constructor
  · rintro ⟨r, hr, hv⟩
    obtain ⟨il, hil, hf⟩ := List.mem_filterMap.mp hr
    cases hp : parseImportLine il.2 with
    | none => simp [hp] at hf
    | some vp =>
      rw [hp] at hf
      have hrec := Option.some.inj hf
      have h1 : vp.1 = var := by
        have := congrArg ImportRecord.variableName hrec
        simp only at this
        simp only [this]
        exact of_decide_eq_true hv
      refine ⟨il.2, snd_mem_of_mem_enumFrom hil, vp.2, ?_⟩
      rw [hp]
      simp [← h1]
  · rintro ⟨l, hl, p, hp⟩
    obtain ⟨i, hi⟩ := exists_mem_enumFrom_of_mem hl 0
    refine ⟨⟨var, p, i + 1⟩, ?_, by simp⟩
    apply List.mem_filterMap.mpr
    exact ⟨(i, l), hi, by simp [hp]⟩

/-- A matching use record exists iff some line's `.use` variable matches. -/
theorem uses_any_var_iff (c : String) (var : String) :
    ((parseIndexInfo c).routeUses.any fun u => u.variableName = var) = true
      ↔ ∃ l ∈ splitLines c, lineUseVar l = some var := by
  simp only [parseIndexInfo, List.any_eq_true]
  constructor
  · rintro ⟨u, hu, hv⟩
    obtain ⟨il, hil, hf⟩ := List.mem_filterMap.mp hu
    cases hp : findUseVar (trimChars il.2.data) with
    | none => simp [hp] at hf
    | some v =>
      rw [hp] at hf
      have hrec := Option.some.inj hf
      have h1 : v = var := by
        have := congrArg UseRecord.variableName hrec
        simp only at this
        simp only [this]
        exact of_decide_eq_true hv
      refine ⟨il.2, snd_mem_of_mem_enumFrom hil, ?_⟩
      rw [lineUseVar, hp, h1]
  · rintro ⟨l, hl, hp⟩
    obtain ⟨i, hi⟩ := exists_mem_enumFrom_of_mem hl 0
    refine ⟨⟨var, i + 1⟩, ?_, by simp⟩
    apply List.mem_filterMap.mpr
    rw [lineUseVar] at hp
    exact ⟨(i, l), hi, by simp [hp]⟩

theorem foldl_max_le {α : Type} (f : α → Nat) (rs : List α) (m : Nat)
    (h : ∀ r ∈ rs, f r ≤ m) :
    ∀ init, init ≤ m → rs.foldl (fun acc r => max acc (f r)) init ≤ m := by
  induction rs with
  | nil => intro init hi; simpa using hi
  | cons r rest ih =>
    intro init hi
    simp only [List.foldl]
    exact ih (fun x hx => h x (List.mem_cons_of_mem r hx)) _
      (by have := h r (List.mem_cons_self r rest); omega)

theorem lastImportLine_le (c : String) :
    (parseIndexInfo c).lastImportLine ≤ (splitLines c).length := by
  apply foldl_max_le _ _ _ ?hb 0 (Nat.zero_le _)
  intro r hr
  obtain ⟨il, hil, hf⟩ := List.mem_filterMap.mp hr
  cases hp : parseImportLine il.2 with
  | none => simp [hp] at hf
  | some vp =>
    rw [hp] at hf
    have hrec := Option.some.inj hf
    have hln : r.lineNumber = il.1 + 1 := by
      have := congrArg ImportRecord.lineNumber hrec
      simpa using this.symm
    have := fst_lt_of_mem_enumFrom hil
    simp only [Nat.zero_add] at this
    omega

/-! ## `lastUseAnchor` lemmas -/

theorem anchor_foldl_none_iff (cand : String → Bool) :
    ∀ (ls : List String) (n : Nat) (acc : Option Nat),
      ((List.enumFrom n ls).foldl
          (fun acc il => if cand il.2 then some (il.1 + 1) else acc) acc
        = none)
      ↔ (acc = none ∧ ∀ l ∈ ls, cand l = false) := by
  intro ls
  induction ls with
  | nil => intro n acc; simp [List.enumFrom]
  | cons a rest ih =>
    intro n acc
    simp only [List.enumFrom, List.foldl]
    by_cases hc : cand a
    · rw [if_pos hc]
      rw [ih (n + 1) (some (n + 1))]
      simp [hc]
    · rw [if_neg hc]
      rw [ih (n + 1) acc]
      constructor
      · rintro ⟨h1, h2⟩
        refine ⟨h1, ?_⟩
        intro l hl
        rcases List.mem_cons.mp hl with rfl | hl
        · simpa using hc
        · exact h2 l hl
      · rintro ⟨h1, h2⟩
        exact ⟨h1, fun l hl => h2 l (List.mem_cons_of_mem a hl)⟩

theorem anchor_foldl_le (cand : String → Bool) :
    ∀ (ls : List String) (n : Nat) (acc : Option Nat) (k : Nat),
      (∀ j, acc = some j → j ≤ n) →
      ((List.enumFrom n ls).foldl
          (fun acc il => if cand il.2 then some (il.1 + 1) else acc) acc
        = some k) → k ≤ n + ls.length := by
  intro ls
  induction ls with
  | nil =>
    intro n acc k hacc h
    simp only [List.enumFrom, List.foldl] at h
    have := hacc k h
    omega
  | cons a rest ih =>
    intro n acc k hacc h
    simp only [List.enumFrom, List.foldl] at h
    have hnext : ∀ j, (if cand a then some (n + 1) else acc) = some j →
        j ≤ n + 1 := by
      intro j hj
      by_cases hc : cand a
      · rw [if_pos hc] at hj
        have := Option.some.inj hj
        omega
      · rw [if_neg hc] at hj
        have := hacc j hj
        omega
    have := ih (n + 1) _ k hnext h
    simp only [List.length_cons]
    omega

theorem lastUseAnchor_none_iff (ls : List String) :
    lastUseAnchor ls = none
      ↔ ∀ l ∈ ls, (containsSubstr l ".use(" && containsSubstr l "Routes") = false := by
  have := anchor_foldl_none_iff
    (fun l => containsSubstr l ".use(" && containsSubstr l "Routes") ls 0 none
  simpa [lastUseAnchor] using this

theorem lastUseAnchor_le (ls : List String) (k : Nat)
    (h : lastUseAnchor ls = some k) : k ≤ ls.length := by
  have := anchor_foldl_le
    (fun l => containsSubstr l ".use(" && containsSubstr l "Routes") ls 0 none k
    (by simp) h
  simpa using this

/-! ## insertIdx decomposition -/

theorem insertIdx_eq_append {α : Type} (x : α) :
    ∀ (n : Nat) (l : List α), n ≤ l.length →
      l.insertIdx n x = l.take n ++ x :: l.drop n := by
  intro n
  induction n with
  | zero => intro l h; simp [List.insertIdx_zero]
  | succ m ih =>
    intro l h
    cases l with
    | nil => simp at h
    | cons a rest =>
      simp only [List.insertIdx_succ_cons, List.take, List.drop]
      rw [ih rest (by simpa using h)]
      rfl

theorem mem_insertIdx_self {α : Type} (x : α) (n : Nat) (l : List α)
    (h : n ≤ l.length) : x ∈ l.insertIdx n x := by
  rw [insertIdx_eq_append x n l h]
  simp

theorem mem_insertIdx_of_mem {α : Type} {a : α} (x : α) (n : Nat) (l : List α)
    (h : n ≤ l.length) (ha : a ∈ l) : a ∈ l.insertIdx n x := by
  rw [insertIdx_eq_append x n l h]
  rcases List.mem_append.mp ((List.take_append_drop n l).symm ▸ ha) with h1 | h1
  · exact List.mem_append.mpr (Or.inl h1)
  · exact List.mem_append.mpr (Or.inr (List.mem_cons_of_mem x h1))

theorem mem_of_mem_insertIdx {α : Type} {a : α} {x : α} {n : Nat} {l : List α}
    (h : n ≤ l.length) (ha : a ∈ l.insertIdx n x) : a = x ∨ a ∈ l := by
  rw [insertIdx_eq_append x n l h] at ha
  rcases List.mem_append.mp ha with h1 | h1
  · exact Or.inr (List.mem_of_mem_take h1)
  · rcases List.mem_cons.mp h1 with rfl | h1
    · exact Or.inl rfl
    · exact Or.inr (List.mem_of_mem_drop h1)

theorem filter_insertIdx_of_neg {α : Type} (p : α → Bool) (x : α) (n : Nat)
    (l : List α) (h : n ≤ l.length) (hx : p x = false) :
    (l.insertIdx n x).filter p = l.filter p := by
  rw [insertIdx_eq_append x n l h, List.filter_append, List.filter_cons,
    hx]
  rw [if_neg (by simp)]
  rw [← List.filter_append, List.take_append_drop]

/-! ## Descending-order removal equals filtering -/

theorem linePositions_cons (Q : String → Bool) (n : Nat) (a : String)
    (ls : List String) :
    linePositions Q n (a :: ls)
      = (if Q a then [n] else []) ++ linePositions Q (n + 1) ls := by
  simp only [linePositions, List.enumFrom, List.filterMap]
  split <;> simp_all

theorem linePositions_shift (Q : String → Bool) :
    ∀ (ls : List String) (n : Nat),
      linePositions Q (n + 1) ls = (linePositions Q n ls).map (· + 1) := by
  intro ls
  induction ls with
  | nil => intro n; rfl
  | cons a rest ih =>
    intro n
    rw [linePositions_cons, linePositions_cons, List.map_append, ih (n + 1)]
    by_cases hq : Q a <;> simp [hq]

theorem linePositions_ge (Q : String → Bool) :
    ∀ (ls : List String) (n : Nat), ∀ x ∈ linePositions Q n ls, n ≤ x := by
  intro ls
  induction ls with
  | nil => intro n x hx; simp [linePositions, List.enumFrom] at hx
  | cons a rest ih =>
    intro n x hx
    rw [linePositions_cons] at hx
    rcases List.mem_append.mp hx with h1 | h1
    · by_cases hq : Q a
      · rw [if_pos hq] at h1
        simp at h1
        omega
      · rw [if_neg hq] at h1
        simp at h1
    · have := ih (n + 1) x h1
      omega

theorem linePositions_pairwise_lt (Q : String → Bool) :
    ∀ (ls : List String) (n : Nat),
      List.Pairwise (· < ·) (linePositions Q n ls) := by
  intro ls
  induction ls with
  | nil => intro n; simp [linePositions, List.enumFrom]
  | cons a rest ih =>
    intro n
    rw [linePositions_cons]
    by_cases hq : Q a
    · rw [if_pos hq]
      simp only [List.singleton_append, List.pairwise_cons]
      refine ⟨?_, ih (n + 1)⟩
      intro x hx
      have := linePositions_ge Q rest (n + 1) x hx
      omega
    · rw [if_neg hq, List.nil_append]
      exact ih (n + 1)

theorem sortDescNat_of_pairwise_lt (l : List Nat)
    (h : List.Pairwise (· < ·) l) : sortDescNat l = l.reverse := by
  apply List.eq_of_perm_of_sorted (r := fun a b : Nat => b ≤ a)
  · exact (List.perm_insertionSort _ l).trans l.reverse_perm.symm
  · exact List.sorted_insertionSort _ l
  · rw [List.Sorted, List.pairwise_reverse]
    exact h.imp fun hab => le_of_lt hab

theorem eraseIdxs_append (l : List String) (i1 i2 : List Nat) :
    eraseIdxs l (i1 ++ i2) = eraseIdxs (eraseIdxs l i1) i2 :=
  List.foldl_append _ _ _ _

theorem eraseIdxs_map_succ (a : String) :
    ∀ (idxs : List Nat) (ls : List String),
      eraseIdxs (a :: ls) (idxs.map (· + 1)) = a :: eraseIdxs ls idxs := by
  intro idxs
  induction idxs with
  | nil => intro ls; rfl
  | cons i rest ih =>
    intro ls
    simp only [List.map, eraseIdxs, List.foldl]
    exact ih (ls.eraseIdx i)

theorem eraseIdxs_desc_eq_filter (Q : String → Bool) :
    ∀ ls : List String,
      eraseIdxs ls (sortDescNat (linePositions Q 0 ls))
        = ls.filter fun l => !Q l := by
  intro ls
  rw [sortDescNat_of_pairwise_lt _ (linePositions_pairwise_lt Q ls 0)]
  induction ls with
  | nil => rfl
  | cons a rest ih =>
    rw [linePositions_cons, linePositions_shift, List.reverse_append]
    rw [← List.map_reverse, eraseIdxs_append, eraseIdxs_map_succ, ih]
    by_cases hq : Q a
    · rw [if_pos hq]
      simp only [List.reverse_cons, List.reverse_nil, List.nil_append,
        eraseIdxs, List.foldl, List.eraseIdx]
      simp [List.filter, hq]
    · rw [if_neg hq]
      simp [List.filter, hq, eraseIdxs]

/-! ## Record positions to line positions -/

theorem import_positions_bridge (q : String → Bool) :
    ∀ (ls : List String) (n : Nat),
      ((((List.enumFrom n ls).filterMap fun il =>
          (parseImportLine il.2).map fun vp =>
            ImportRecord.mk vp.1 vp.2 (il.1 + 1)).filter fun r =>
          q r.importPath).map fun r => r.lineNumber - 1)
        = linePositions
            (fun l =>
              match parseImportLine l with
              | some vp => q vp.2
              | none => false) n ls := by
  intro ls
  induction ls with
  | nil => intro n; rfl
  | cons a rest ih =>
    intro n
    rw [linePositions_cons]
    simp only [List.enumFrom, List.filterMap_cons]
    cases hp : parseImportLine a with
    | none =>
      simp only [hp, Option.map_none']
      rw [← ih (n + 1)]
      simp [hp]
    | some vp =>
      simp only [hp, Option.map_some']
      by_cases hq : q vp.2
      · simp only [List.filter_cons]
        rw [← ih (n + 1)]
        simp [hp, hq]
      · simp only [List.filter_cons]
        rw [← ih (n + 1)]
        simp [hp, hq]

theorem use_positions_bridge (q : String → Bool) :
    ∀ (ls : List String) (n : Nat),
      ((((List.enumFrom n ls).filterMap fun il =>
          (findUseVar (trimChars il.2.data)).map fun v =>
            UseRecord.mk v (il.1 + 1)).filter fun u =>
          q u.variableName).map fun u => u.lineNumber - 1)
        = linePositions
            (fun l =>
              match lineUseVar l with
              | some v => q v
              | none => false) n ls := by
  intro ls
  induction ls with
  | nil => intro n; rfl
  | cons a rest ih =>
    intro n
    rw [linePositions_cons]
    simp only [List.enumFrom, List.filterMap_cons]
    cases hp : findUseVar (trimChars a.data) with
    | none =>
      simp only [hp, Option.map_none']
      rw [← ih (n + 1)]
      simp [lineUseVar, hp]
    | some v =>
      simp only [hp, Option.map_some']
      by_cases hq : q v
      · simp only [List.filter_cons]
        rw [← ih (n + 1)]
        simp [lineUseVar, hp, hq]
      · simp only [List.filter_cons]
        rw [← ih (n + 1)]
        simp [lineUseVar, hp, hq]

/-! ## Builder-import variable characterizations -/

theorem mem_imports_of_line (c l : String) (vp : String × String)
    (hl : l ∈ splitLines c) (hp : parseImportLine l = some vp) :
    ∃ r ∈ (parseIndexInfo c).imports,
      r.variableName = vp.1 ∧ r.importPath = vp.2 := by
  obtain ⟨i, hi⟩ := exists_mem_enumFrom_of_mem hl 0
  refine ⟨⟨vp.1, vp.2, i + 1⟩, ?_, rfl, rfl⟩
  apply List.mem_filterMap.mpr
  exact ⟨(i, l), hi, by simp [hp]⟩

theorem imports_line_of_mem (c : String) (r : ImportRecord)
    (hr : r ∈ (parseIndexInfo c).imports) :
    ∃ l ∈ splitLines c, parseImportLine l = some (r.variableName, r.importPath) := by
  obtain ⟨il, hil, hf⟩ := List.mem_filterMap.mp hr
  cases hp : parseImportLine il.2 with
  | none => simp [hp] at hf
  | some vp =>
    rw [hp] at hf
    have hrec := Option.some.inj hf
    refine ⟨il.2, snd_mem_of_mem_enumFrom hil, ?_⟩
    rw [hp, ← hrec]

theorem builderImportVars_contains_iff (c v : String) :
    (builderImportVars c).contains v = true
      ↔ ∃ l ∈ splitLines c, ∃ p, parseImportLine l = some (v, p)
          ∧ isBuilderImportPath p = true := by
  rw [List.contains_iff_exists_mem_beq]
  constructor
  · rintro ⟨x, hx, hbeq⟩
    have hxv : x = v := (by simpa using hbeq : v = x).symm
    subst hxv
    simp only [builderImportVars, List.mem_map] at hx
    obtain ⟨r, hrf, hrv⟩ := hx
    have hmem := List.mem_filter.mp hrf
    obtain ⟨l, hl, hp⟩ := imports_line_of_mem c r hmem.1
    exact ⟨l, hl, r.importPath, by rw [hp, hrv], hmem.2⟩
  · rintro ⟨l, hl, p, hp, hb⟩
    obtain ⟨r, hr, hrv, hrp⟩ := mem_imports_of_line c l (v, p) hl hp
    refine ⟨v, ?_, by simp⟩
    simp only [builderImportVars, List.mem_map]
    exact ⟨r, List.mem_filter.mpr ⟨hr, by rw [hrp]; exact hb⟩, hrv⟩

theorem builderRoutes_any_iff (c v : String) :
    (((parseIndexInfo c).routeUses.filter fun u =>
        ((parseIndexInfo c).imports.filter fun imp =>
          isBuilderImportPath imp.importPath).any
            fun imp => imp.variableName = u.variableName).any
        fun br => br.variableName = v) = true
      ↔ (((parseIndexInfo c).routeUses.any fun u => u.variableName = v) = true
          ∧ (builderImportVars c).contains v = true) := by
  have hbv : ∀ w, (((parseIndexInfo c).imports.filter fun imp =>
      isBuilderImportPath imp.importPath).any fun imp => imp.variableName = w)
        = (builderImportVars c).contains w := by
    intro w
    rcases hc : (builderImportVars c).contains w with _ | _
    · rw [Bool.eq_false_iff]
      intro hany
      obtain ⟨r, hr, hrw⟩ := List.any_eq_true.mp hany
      have : (builderImportVars c).contains w = true := by
        rw [List.contains_iff_exists_mem_beq]
        refine ⟨w, ?_, by simp⟩
        simp only [builderImportVars, List.mem_map]
        exact ⟨r, hr, of_decide_eq_true hrw⟩
      rw [this] at hc
      cases hc
    · obtain ⟨x, hx, hbeq⟩ := List.contains_iff_exists_mem_beq.mp hc
      have hxv : x = w := (by simpa using hbeq : w = x).symm
      subst hxv
      simp only [builderImportVars, List.mem_map] at hx
      obtain ⟨r, hrf, hrw⟩ := hx
      exact List.any_eq_true.mpr ⟨r, hrf, by simp [hrw]⟩
  constructor
  · intro h
    obtain ⟨br, hbr, hbrv⟩ := List.any_eq_true.mp h
    have hmem := List.mem_filter.mp hbr
    have hv : br.variableName = v := of_decide_eq_true hbrv
    refine ⟨List.any_eq_true.mpr ⟨br, hmem.1, by simp [hv]⟩, ?_⟩
    rw [← hbv v, ← hv]
    exact hmem.2
  · rintro ⟨h1, h2⟩
    obtain ⟨u, hu, huv⟩ := List.any_eq_true.mp h1
    have hv : u.variableName = v := of_decide_eq_true huv
    apply List.any_eq_true.mpr
    refine ⟨u, List.mem_filter.mpr ⟨hu, ?_⟩, by simp [hv]⟩
    rw [hv, hbv v]
    exact h2

/-! ## The two-phase removal is exactly a filter -/

theorem isBuilderImportLine_false_of_no_builder (c l : String)
    (hl : l ∈ splitLines c)
    (hE : ((parseIndexInfo c).imports.filter fun imp =>
      isBuilderImportPath imp.importPath).isEmpty = true) :
    isBuilderImportLine l = false := by
  cases hbl : isBuilderImportLine l
  · rfl
  exfalso
  unfold isBuilderImportLine at hbl
  cases hp : parseImportLine l with
  | none => rw [hp] at hbl; cases hbl
  | some vp =>
    rw [hp] at hbl
    obtain ⟨r, hr, hrv, hrp⟩ := mem_imports_of_line c l vp hl hp
    have hmem : r ∈ (parseIndexInfo c).imports.filter fun imp =>
        isBuilderImportPath imp.importPath :=
      List.mem_filter.mpr ⟨hr, by rw [hrp]; exact hbl⟩
    rw [List.isEmpty_iff] at hE
    rw [hE] at hmem
    cases hmem

/-- The core helper: `cleanupIndexFile` removes exactly the
builder-import lines and the registrations whose variable matches one of
them — i.e. it is the filter keeping every other line, in order. -/
theorem cleanupIndexFile_eq_filter (c : String) :
    cleanupIndexFile c
      = joinLines ((splitLines c).filter fun l =>
          !isBuilderImportLine l && !isRemovedUseLine c l) := by
  simp only [cleanupIndexFile]
  by_cases hE : (((parseIndexInfo c).imports.filter fun imp =>
      isBuilderImportPath imp.importPath).isEmpty
    && ((parseIndexInfo c).routeUses.filter fun u =>
        ((parseIndexInfo c).imports.filter fun imp =>
          isBuilderImportPath imp.importPath).any fun imp =>
            imp.variableName = u.variableName).isEmpty) = true
  · rw [if_pos hE]
    have hBIe := (Bool.and_eq_true _ _).mp hE |>.1
    have hfil : ((splitLines c).filter fun l =>
        !isBuilderImportLine l && !isRemovedUseLine c l) = splitLines c := by
      apply List.filter_eq_self.mpr
      intro l hl
      have h1 := isBuilderImportLine_false_of_no_builder c l hl hBIe
      have h2 : isRemovedUseLine c l = false := by
        unfold isRemovedUseLine
        cases hu : lineUseVar l with
        | none => rfl
        | some v =>
          have hbv : builderImportVars c = [] := by
            unfold builderImportVars
            rw [List.isEmpty_iff] at hBIe
            rw [hBIe]
            rfl
          rw [hbv]
          rfl
      rw [h1, h2]
      rfl
    rw [hfil, joinLines_splitLines]
  · rw [if_neg hE]
    have hpos1 : (((parseIndexInfo c).imports.filter fun imp =>
          isBuilderImportPath imp.importPath).map fun imp =>
            imp.lineNumber - 1)
        = linePositions isBuilderImportLine 0 (splitLines c) :=
      import_positions_bridge isBuilderImportPath (splitLines c) 0
    rw [hpos1, eraseIdxs_desc_eq_filter]
    by_cases hnil : ((splitLines c).filter fun l => !isBuilderImportLine l) = []
    · rw [hnil]
      have hr : ((splitLines c).filter fun l =>
          !isBuilderImportLine l && !isRemovedUseLine c l) = [] := by
        rw [List.filter_eq_nil_iff]
        intro l hl
        have hnb := List.filter_eq_nil_iff.mp hnil l hl
        have hbt : isBuilderImportLine l = true := by
          cases h : isBuilderImportLine l
          · exact absurd (by rw [h]; rfl) hnb
          · rfl
        simp [hbt]
      rw [hr]
      rfl
    · have hnonl : ∀ l ∈ ((splitLines c).filter fun l =>
          !isBuilderImportLine l), '\n' ∉ l.data := fun l hl =>
        mem_splitLines_no_newline c l (List.mem_of_mem_filter hl)
      have hsplit2 : splitLines (joinLines ((splitLines c).filter fun l =>
          !isBuilderImportLine l))
          = (splitLines c).filter fun l => !isBuilderImportLine l :=
        splitLines_joinLines _ hnil hnonl
      have hruses : (parseIndexInfo (joinLines ((splitLines c).filter fun l =>
          !isBuilderImportLine l))).routeUses
          = ((List.enumFrom 0 ((splitLines c).filter fun l =>
              !isBuilderImportLine l)).filterMap fun il =>
            (findUseVar (trimChars il.2.data)).map fun v =>
              UseRecord.mk v (il.1 + 1)) := by
        show (((List.enumFrom 0 (splitLines (joinLines
            ((splitLines c).filter fun l =>
              !isBuilderImportLine l)))).filterMap fun il =>
          (findUseVar (trimChars il.2.data)).map fun v =>
            UseRecord.mk v (il.1 + 1))) = _
        rw [hsplit2]
      rw [hruses, hsplit2]
      rw [use_positions_bridge
        (fun v => ((parseIndexInfo c).routeUses.filter fun u =>
          ((parseIndexInfo c).imports.filter fun imp =>
            isBuilderImportPath imp.importPath).any fun imp =>
              imp.variableName = u.variableName).any
          fun br => br.variableName = v) _ 0]
      rw [eraseIdxs_desc_eq_filter]
      rw [List.filter_filter]
      congr 1
      apply List.filter_congr
      intro l hl
      by_cases hb : isBuilderImportLine l
      · simp [hb]
      · simp only [hb, Bool.not_false, Bool.and_true, Bool.true_and]
        cases hu : lineUseVar l with
        | none =>
          simp only [isRemovedUseLine, hu]
        | some v =>
          simp only [isRemovedUseLine, hu]
          have husesany : ((parseIndexInfo c).routeUses.any
              fun u => u.variableName = v) = true :=
            (uses_any_var_iff c v).mpr ⟨l, hl, hu⟩
          rcases hcv : (builderImportVars c).contains v with _ | _
          · have hbrf : (((parseIndexInfo c).routeUses.filter fun u =>
                ((parseIndexInfo c).imports.filter fun imp =>
                  isBuilderImportPath imp.importPath).any fun imp =>
                    imp.variableName = u.variableName).any
                fun br => br.variableName = v) = false := by
              rw [Bool.eq_false_iff]
              intro hany
              have := ((builderRoutes_any_iff c v).mp hany).2
              rw [this] at hcv
              cases hcv
            rw [hbrf]
          · have hbrt : (((parseIndexInfo c).routeUses.filter fun u =>
                ((parseIndexInfo c).imports.filter fun imp =>
                  isBuilderImportPath imp.importPath).any fun imp =>
                    imp.variableName = u.variableName).any
                fun br => br.variableName = v) = true :=
              (builderRoutes_any_iff c v).mpr ⟨husesany, hcv⟩
            rw [hbrt]

/-! ## Word characters, trimming, and evaluation of the two line matchers
on the generated import and registration lines -/

theorem wordChar_not_ws (c : Char) (h : wordChar c = true) :
    isWsChar c = false := by
  simp only [wordChar, Char.isAlphanum, Char.isAlpha, Char.isUpper,
    Char.isLower, Char.isDigit, Bool.or_eq_true, Bool.and_eq_true,
    decide_eq_true_eq] at h
  simp only [isWsChar, Char.isWhitespace, Bool.or_eq_false_iff,
    decide_eq_false_iff_not]
  rcases h with ((⟨h1, h2⟩ | ⟨h1, h2⟩) | ⟨h1, h2⟩) | h1
  · refine ⟨⟨⟨?_, ?_⟩, ?_⟩, ?_⟩ <;> intro hc <;> rw [hc] at h1 h2 <;>
      revert h1 h2 <;> decide
  · refine ⟨⟨⟨?_, ?_⟩, ?_⟩, ?_⟩ <;> intro hc <;> rw [hc] at h1 h2 <;>
      revert h1 h2 <;> decide
  · refine ⟨⟨⟨?_, ?_⟩, ?_⟩, ?_⟩ <;> intro hc <;> rw [hc] at h1 h2 <;>
      revert h1 h2 <;> decide
  · subst h1; decide

theorem wordChar_toUpper (c : Char) (h : wordChar c = true) :
    wordChar c.toUpper = true := by
  unfold Char.toUpper
  by_cases hr : c.toNat ≥ 97 ∧ c.toNat ≤ 122
  · rw [if_pos hr]
    obtain ⟨h1, h2⟩ := hr
    set n := c.toNat with hn
    interval_cases n <;> decide
  · rw [if_neg hr]
    exact h

theorem wordChar_ne_newline (c : Char) (h : wordChar c = true) :
    c ≠ '\n' := by
  intro hc
  rw [hc] at h
  exact absurd h (by decide)

theorem wordChar_ne_paren (c : Char) (h : wordChar c = true) :
    c ≠ '(' := by
  intro hc
  rw [hc] at h
  exact absurd h (by decide)

theorem takeWhile_append_stop (p : Char → Bool) (y : Char) (t : List Char)
    (hy : p y = false) :
    ∀ xs : List Char, (∀ c ∈ xs, p c = true) →
      (xs ++ y :: t).takeWhile p = xs := by
  intro xs
  induction xs with
  | nil => intro _; simp [List.takeWhile_cons, hy]
  | cons a as ih =>
    intro hall
    simp only [List.cons_append, List.takeWhile_cons,
      hall a (List.mem_cons_self a as), if_true]
    rw [ih fun c hc => hall c (List.mem_cons_of_mem a hc)]

theorem dropWhile_append_stop (p : Char → Bool) (y : Char) (t : List Char)
    (hy : p y = false) :
    ∀ xs : List Char, (∀ c ∈ xs, p c = true) →
      (xs ++ y :: t).dropWhile p = y :: t := by
  intro xs
  induction xs with
  | nil => intro _; simp [List.dropWhile_cons, hy]
  | cons a as ih =>
    intro hall
    simp only [List.cons_append, List.dropWhile_cons,
      hall a (List.mem_cons_self a as), if_true]
    exact ih fun c hc => hall c (List.mem_cons_of_mem a hc)

theorem isPrefixOf_self_append (lit rest : List Char) :
    lit.isPrefixOf (lit ++ rest) = true := by
  induction lit with
  | nil => simp [List.isPrefixOf]
  | cons a as ih => simp [List.isPrefixOf, ih]

theorem stripLit_self_append (lit rest : List Char) :
    stripLit lit (lit ++ rest) = some rest := by
  unfold stripLit
  rw [if_pos (isPrefixOf_self_append lit rest), List.drop_left]

theorem trimChars_eq_self (l : List Char)
    (hh : ∀ c, l.head? = some c → isWsChar c = false)
    (hl : ∀ c, l.getLast? = some c → isWsChar c = false) :
    trimChars l = l := by
  unfold trimChars
  cases l with
  | nil => rfl
  | cons a as =>
    rw [List.dropWhile_cons, if_neg (by simp [hh a rfl])]
    rcases hrev : (a :: as).reverse with _ | ⟨b, bs⟩
    · exact absurd hrev (by simp)
    · have hb : (a :: as).getLast? = some b := by
        rw [← List.head?_reverse, hrev]; rfl
      rw [List.dropWhile_cons, if_neg (by simp [hl b hb])]
      rw [← hrev, List.reverse_reverse]

theorem trimChars_cons_ws (c : Char) (l : List Char) (h : isWsChar c = true) :
    trimChars (c :: l) = trimChars l := by
  unfold trimChars
  rw [List.dropWhile_cons, if_pos h]

/-- A character of the trimmed line is a character of the line. -/
theorem mem_of_mem_trimChars (a : Char) (l : List Char)
    (h : a ∈ trimChars l) : a ∈ l := by
  unfold trimChars at h
  rw [List.mem_reverse] at h
  have h2 := (List.dropWhile_sublist isWsChar
    (l := (l.dropWhile isWsChar).reverse)).subset h
  rw [List.mem_reverse] at h2
  exact (List.dropWhile_sublist isWsChar (l := l)).subset h2

/-- `parseImportLine` accepts the statement shape
`import V from "P";` emitted by `generateImportStatement`, capturing the
variable and the path. -/
theorem parseImportLine_gen (V P : String)
    (hvne : V.data ≠ []) (hvw : ∀ c ∈ V.data, wordChar c = true)
    (hsuf : "routes".data.isSuffixOf P.data = true)
    (h7 : 7 ≤ P.length) :
    parseImportLine ("import " ++ V ++ " from \"" ++ P ++ "\";")
      = some (V, P) := by
  have hdata : ("import " ++ V ++ " from \"" ++ P ++ "\";").data
      = "import".data ++ ' ' :: (V.data ++ ' ' :: ("from".data
        ++ ' ' :: '"' :: (P.data ++ ['"', ';']))) := by
    simp [String.data_append, List.append_assoc]
  obtain ⟨v0, vrest, hV⟩ : ∃ v0 vrest, V.data = v0 :: vrest := by
    cases hV : V.data with
    | nil => exact absurd hV hvne
    | cons a as => exact ⟨a, as, rfl⟩
  have hv0w : wordChar v0 = true :=
    hvw v0 (by rw [hV]; exact List.mem_cons_self _ _)
  have htrim : trimChars ("import " ++ V ++ " from \"" ++ P ++ "\";").data
      = "import".data ++ ' ' :: (V.data ++ ' ' :: ("from".data
        ++ ' ' :: '"' :: (P.data ++ ['"', ';']))) := by
    rw [hdata]
    apply trimChars_eq_self
    · intro c hc
      have hci : c = 'i' := by
        rw [show ("import".data ++ ' ' :: (V.data ++ ' ' :: ("from".data
          ++ ' ' :: '"' :: (P.data ++ ['"', ';'])))).head? = some 'i'
          from rfl] at hc
        exact (Option.some.inj hc).symm
      rw [hci]; decide
    · intro c hc
      have hre : "import".data ++ ' ' :: (V.data ++ ' ' :: ("from".data
          ++ ' ' :: '"' :: (P.data ++ ['"', ';'])))
          = ("import".data ++ ' ' :: (V.data ++ ' ' :: ("from".data
            ++ ' ' :: '"' :: (P.data ++ ['"'])))) ++ [';'] := by
        simp [List.append_assoc]
      rw [hre, List.getLast?_concat] at hc
      rw [(Option.some.inj hc).symm]; decide
  have h1 : stripLit "import".data
      (trimChars ("import " ++ V ++ " from \"" ++ P ++ "\";").data)
      = some (' ' :: (V.data ++ ' ' :: ("from".data
        ++ ' ' :: '"' :: (P.data ++ ['"', ';'])))) := by
    rw [htrim]
    exact stripLit_self_append _ _
  have h2 : dropWs1 (' ' :: (V.data ++ ' ' :: ("from".data
      ++ ' ' :: '"' :: (P.data ++ ['"', ';']))))
      = some (V.data ++ ' ' :: ("from".data
        ++ ' ' :: '"' :: (P.data ++ ['"', ';']))) := by
    show (if isWsChar ' ' then some _ else none) = _
    rw [if_pos (by decide)]
    congr 1
    rw [hV, List.cons_append, List.dropWhile_cons,
      if_neg (by simp [wordChar_not_ws v0 hv0w])]
  have h3 : takeWord1 (V.data ++ ' ' :: ("from".data
      ++ ' ' :: '"' :: (P.data ++ ['"', ';'])))
      = some (V.data, ' ' :: ("from".data
        ++ ' ' :: '"' :: (P.data ++ ['"', ';']))) := by
    unfold takeWord1
    rw [takeWhile_append_stop wordChar ' ' _ (by decide) V.data hvw]
    rw [if_neg (by simpa [List.isEmpty_iff] using hvne)]
    rw [dropWhile_append_stop wordChar ' ' _ (by decide) V.data hvw]
  have h4 : dropWs1 (' ' :: ("from".data
      ++ ' ' :: '"' :: (P.data ++ ['"', ';'])))
      = some ("from".data ++ ' ' :: '"' :: (P.data ++ ['"', ';'])) := by
    show (if isWsChar ' ' then some _ else none) = _
    rw [if_pos (by decide)]
    congr 1
  have h5 : stripLit "from".data ("from".data
      ++ ' ' :: '"' :: (P.data ++ ['"', ';']))
      = some (' ' :: '"' :: (P.data ++ ['"', ';'])) :=
    stripLit_self_append _ _
  have h6 : dropWs1 (' ' :: '"' :: (P.data ++ ['"', ';']))
      = some ('"' :: (P.data ++ ['"', ';'])) := by
    show (if isWsChar ' ' then some _ else none) = _
    rw [if_pos (by decide)]
    congr 1
  simp only [parseImportLine, h1, h2, h3, h4, h5, h6, bind, Option.bind]
  have hgl : (P.data ++ ['"', ';']).getLast? = some ';' := by
    rw [show P.data ++ ['"', ';'] = (P.data ++ ['"']) ++ [';'] by simp]
    exact List.getLast?_concat _
  rw [if_pos hgl]
  have hdl : (P.data ++ ['"', ';']).dropLast = P.data ++ ['"'] := by
    rw [show P.data ++ ['"', ';'] = (P.data ++ ['"']) ++ [';'] by simp]
    exact List.dropLast_concat
  rw [hdl]
  rw [List.getLast?_concat]
  rw [List.dropLast_concat]
  have hsuf2 : (['r', 'o', 'u', 't', 'e', 's'].isSuffixOf P.data) = true := hsuf
  have h7d : 7 ≤ P.data.length := h7
  simp [hsuf2, h7d]
  exact h7

/-- `findUseVar` accepts `.use(V)` at the head of the scan. -/
theorem findUseVar_use (v : String) (hvne : v.data ≠ [])
    (hvw : ∀ c ∈ v.data, wordChar c = true) :
    findUseVar (".use(".data ++ v.data ++ [')']) = some v := by
  show findUseVar ('.' :: 'u' :: 's' :: 'e' :: '(' :: (v.data ++ [')']))
    = some v
  rw [findUseVar]
  have hpre : ".use(".data.isPrefixOf
      ('.' :: 'u' :: 's' :: 'e' :: '(' :: (v.data ++ [')'])) = true := by
    show (['.', 'u', 's', 'e', '('].isPrefixOf
      ('.' :: 'u' :: 's' :: 'e' :: '(' :: (v.data ++ [')']))) = true
    simp [List.isPrefixOf]
  rw [if_pos hpre]
  have hdrop : ('.' :: 'u' :: 's' :: 'e' :: '(' :: (v.data ++ [')'])).drop 5
      = v.data ++ [')'] := rfl
  simp only [hdrop]
  have htake : (v.data ++ [')']).takeWhile wordChar = v.data := by
    have := takeWhile_append_stop wordChar ')' [] (by decide) v.data hvw
    simpa using this
  rw [htake]
  rw [if_neg (by simpa [List.isEmpty_iff] using hvne)]
  have hdrop2 : (v.data ++ [')']).drop v.data.length = [')'] := by
    have := List.drop_left v.data [')']
    simpa using this
  rw [hdrop2]
  rfl

/-- The registration line inserted by `updateIndexFile` parses back to the
same variable name. -/
theorem lineUseVar_use_line (v : String) (hvne : v.data ≠ [])
    (hvw : ∀ c ∈ v.data, wordChar c = true) :
    lineUseVar ("  .use(" ++ v ++ ")") = some v := by
  unfold lineUseVar
  have hdata : ("  .use(" ++ v ++ ")").data
      = ' ' :: ' ' :: (".use(".data ++ (v.data ++ [')'])) := by
    simp [String.data_append]
  rw [hdata, trimChars_cons_ws _ _ (by decide),
    trimChars_cons_ws _ _ (by decide)]
  have htrim : trimChars (".use(".data ++ (v.data ++ [')']))
      = ".use(".data ++ (v.data ++ [')']) := by
    apply trimChars_eq_self
    · intro c hc
      rw [show ((".use(".data ++ (v.data ++ [')'])).head? = some '.')
        from rfl] at hc
      rw [(Option.some.inj hc).symm]; decide
    · intro c hc
      rw [show ".use(".data ++ (v.data ++ [')'])
        = (".use(".data ++ v.data) ++ [')'] by simp,
        List.getLast?_concat] at hc
      rw [(Option.some.inj hc).symm]; decide
  rw [htrim, show ".use(".data ++ (v.data ++ [')'])
    = ".use(".data ++ v.data ++ [')'] by simp]
  exact findUseVar_use v hvne hvw

/-- A successful `findUseVar` needs an opening parenthesis somewhere. -/
theorem findUseVar_some_paren :
    ∀ (l : List Char) (v : String), findUseVar l = some v → '(' ∈ l := by
  intro l
  induction l with
  | nil => intro v h; cases h
  | cons c rest ih =>
    intro v h
    rw [findUseVar] at h
    by_cases hpre : ".use(".data.isPrefixOf (c :: rest) = true
    · have hsub : '(' ∈ c :: rest := by
        have : ".use(".data <+: c :: rest := by
          rw [← List.isPrefixOf_iff_prefix]
          exact hpre
        exact this.subset (by decide)
      exact hsub
    · rw [if_neg hpre] at h
      exact List.mem_cons_of_mem c (ih v h)

/-- A line without `(` yields no registration record. -/
theorem lineUseVar_none_of_no_paren (l : String)
    (h : '(' ∉ l.data) : lineUseVar l = none := by
  cases hu : lineUseVar l with
  | none => rfl
  | some v =>
    exfalso
    exact h (mem_of_mem_trimChars _ _ (findUseVar_some_paren _ v hu))

/-- A line without `(` cannot contain the `.use(` anchor substring. -/
theorem containsSubstr_use_false_of_no_paren (l : String)
    (h : '(' ∉ l.data) : containsSubstr l ".use(" = false := by
  cases hc : containsSubstr l ".use(" with
  | false => rfl
  | true =>
    exfalso
    obtain ⟨u, v, huv⟩ := (containsSubstr_iff l ".use(").mp hc
    apply h
    rw [huv]
    simp [String.data_append]

/-! ## Character-level facts about the generated statement and its parse -/

theorem routeVariableName_ne_nil (cfg : RouteConfig) :
    (generateRouteVariableName cfg).data ≠ [] := by
  unfold generateRouteVariableName
  rw [String.data_append, String.data_append]
  intro h
  rw [List.append_eq_nil, List.append_eq_nil] at h
  exact absurd h.2 (by decide)

theorem routeVariableName_wordchar (cfg : RouteConfig)
    (hm2 : ∀ c ∈ cfg.module.data, wordChar c = true)
    (hv2 : ∀ c ∈ cfg.version.data, wordChar c = true) :
    ∀ c ∈ (generateRouteVariableName cfg).data, wordChar c = true := by
  intro c hc
  unfold generateRouteVariableName at hc
  rw [String.data_append, String.data_append] at hc
  rcases List.mem_append.mp hc with h | h
  · rcases List.mem_append.mp h with h1 | h1
    · exact hm2 c h1
    · unfold jsCapitalize at h1
      rcases hv : cfg.version.data with _ | ⟨a, as⟩
      · rw [hv] at h1
        simp at h1
      · rw [hv] at h1
        simp only [List.mem_cons] at h1
        rcases h1 with rfl | h1
        · exact wordChar_toUpper a (hv2 a (by rw [hv]; exact List.mem_cons_self _ _))
        · exact hv2 c (by rw [hv]; exact List.mem_cons_of_mem a h1)
  · have hr : c ∈ ['R', 'o', 'u', 't', 'e', 's'] := h
    fin_cases hr <;> decide

theorem importPath_data_decomp (cfg : RouteConfig) :
    (generateImportPath cfg).data
      = ("./builder/" ++ cfg.module ++ "/" ++ cfg.version ++ "/"
          ++ cfg.module ++ "-" ++ cfg.version).data ++ ['.']
        ++ "routes".data := by
  have hsplit : (".routes" : String).data = ['.'] ++ "routes".data := rfl
  simp [generateImportPath, String.data_append, hsplit, List.append_assoc]

theorem importPath_suffix (cfg : RouteConfig) :
    "routes".data.isSuffixOf (generateImportPath cfg).data = true := by
  rw [List.isSuffixOf_iff_suffix]
  exact ⟨_, (by rw [importPath_data_decomp cfg, List.append_assoc])⟩

theorem importPath_len (cfg : RouteConfig) :
    7 ≤ (generateImportPath cfg).length := by
  have h : (generateImportPath cfg).length
      = (generateImportPath cfg).data.length := rfl
  rw [h, importPath_data_decomp cfg]
  simp

theorem importPath_chars (cfg : RouteConfig)
    (hm2 : ∀ c ∈ cfg.module.data, wordChar c = true)
    (hv2 : ∀ c ∈ cfg.version.data, wordChar c = true) :
    ∀ c ∈ (generateImportPath cfg).data,
      wordChar c = true ∨ c ∈ ['.', '/', '-'] := by
  intro c hc
  unfold generateImportPath at hc
  simp only [String.data_append, List.mem_append] at hc
  rcases hc with (((((((h | h) | h) | h) | h) | h) | h) | h) | h
  · fin_cases h <;> first
      | exact Or.inl (by decide)
      | exact Or.inr (by decide)
  · exact Or.inl (hm2 c h)
  · fin_cases h <;> first
      | exact Or.inl (by decide)
      | exact Or.inr (by decide)
  · exact Or.inl (hv2 c h)
  · fin_cases h <;> first
      | exact Or.inl (by decide)
      | exact Or.inr (by decide)
  · exact Or.inl (hm2 c h)
  · fin_cases h <;> first
      | exact Or.inl (by decide)
      | exact Or.inr (by decide)
  · exact Or.inl (hv2 c h)
  · fin_cases h <;> first
      | exact Or.inl (by decide)
      | exact Or.inr (by decide)

theorem stmt_char_ok (cfg : RouteConfig)
    (hm2 : ∀ c ∈ cfg.module.data, wordChar c = true)
    (hv2 : ∀ c ∈ cfg.version.data, wordChar c = true) :
    ∀ c ∈ (generateImportStatement cfg).data, c ≠ '\n' ∧ c ≠ '(' := by
  intro c hc
  unfold generateImportStatement at hc
  simp only [String.data_append, List.mem_append] at hc
  have hword : wordChar c = true → c ≠ '\n' ∧ c ≠ '(' := fun hw =>
    ⟨wordChar_ne_newline c hw, wordChar_ne_paren c hw⟩
  rcases hc with (((h | h) | h) | h) | h
  · fin_cases h <;> exact ⟨by decide, by decide⟩
  · exact hword (routeVariableName_wordchar cfg hm2 hv2 c h)
  · fin_cases h <;> exact ⟨by decide, by decide⟩
  · rcases importPath_chars cfg hm2 hv2 c h with hw | hl
    · exact hword hw
    · fin_cases hl <;> exact ⟨by decide, by decide⟩
  · fin_cases h <;> exact ⟨by decide, by decide⟩

theorem stmt_no_newline (cfg : RouteConfig)
    (hm2 : ∀ c ∈ cfg.module.data, wordChar c = true)
    (hv2 : ∀ c ∈ cfg.version.data, wordChar c = true) :
    '\n' ∉ (generateImportStatement cfg).data := fun h =>
  (stmt_char_ok cfg hm2 hv2 '\n' h).1 rfl

theorem stmt_no_paren (cfg : RouteConfig)
    (hm2 : ∀ c ∈ cfg.module.data, wordChar c = true)
    (hv2 : ∀ c ∈ cfg.version.data, wordChar c = true) :
    '(' ∉ (generateImportStatement cfg).data := fun h =>
  (stmt_char_ok cfg hm2 hv2 '(' h).2 rfl

theorem useLine_no_newline (v : String)
    (hvw : ∀ c ∈ v.data, wordChar c = true) :
    '\n' ∉ ("  .use(" ++ v ++ ")").data := by
  intro h
  simp only [String.data_append, List.mem_append] at h
  rcases h with (h | h) | h
  · exact absurd (by exact h : '\n' ∈ "  .use(".data) (by decide)
  · exact wordChar_ne_newline '\n' (hvw _ h) rfl
  · exact absurd (by exact h : '\n' ∈ ")".data) (by decide)

theorem lineUseVar_stmt_none (cfg : RouteConfig)
    (hm2 : ∀ c ∈ cfg.module.data, wordChar c = true)
    (hv2 : ∀ c ∈ cfg.version.data, wordChar c = true) :
    lineUseVar (generateImportStatement cfg) = none :=
  lineUseVar_none_of_no_paren _ (stmt_no_paren cfg hm2 hv2)

theorem anchorPred_stmt_false (cfg : RouteConfig)
    (hm2 : ∀ c ∈ cfg.module.data, wordChar c = true)
    (hv2 : ∀ c ∈ cfg.version.data, wordChar c = true) :
    (containsSubstr (generateImportStatement cfg) ".use("
      && containsSubstr (generateImportStatement cfg) "Routes") = false := by
  rw [containsSubstr_use_false_of_no_paren _ (stmt_no_paren cfg hm2 hv2)]
  rfl

theorem parseImportLine_stmt (cfg : RouteConfig)
    (hm2 : ∀ c ∈ cfg.module.data, wordChar c = true)
    (hv2 : ∀ c ∈ cfg.version.data, wordChar c = true) :
    parseImportLine (generateImportStatement cfg)
      = some (generateRouteVariableName cfg, generateImportPath cfg) :=
  parseImportLine_gen (generateRouteVariableName cfg) (generateImportPath cfg)
    (routeVariableName_ne_nil cfg)
    (routeVariableName_wordchar cfg hm2 hv2)
    (importPath_suffix cfg)
    (importPath_len cfg)

theorem isBuilderImportPath_gen (cfg : RouteConfig) :
    isBuilderImportPath (generateImportPath cfg) = true := by
  unfold isBuilderImportPath
  have h : containsSubstr (generateImportPath cfg) "./builder/" = true := by
    apply containsSubstr_of_decomp (u := "")
      (v := cfg.module ++ "/" ++ cfg.version ++ "/" ++ cfg.module
        ++ "-" ++ cfg.version ++ ".routes")
    apply String.ext
    simp [generateImportPath, String.data_append, List.append_assoc]
  rw [h]
  rfl

theorem isBuilderImportLine_stmt (cfg : RouteConfig)
    (hm2 : ∀ c ∈ cfg.module.data, wordChar c = true)
    (hv2 : ∀ c ∈ cfg.version.data, wordChar c = true) :
    isBuilderImportLine (generateImportStatement cfg) = true := by
  unfold isBuilderImportLine
  rw [parseImportLine_stmt cfg hm2 hv2]
  exact isBuilderImportPath_gen cfg

/-- A trimmed line starting with `.` never matches the import pattern. -/
theorem parseImportLine_dot (l : String)
    (h : (trimChars l.data).head? = some '.') : parseImportLine l = none := by
  simp only [parseImportLine, bind, Option.bind]
  rcases ht : trimChars l.data with _ | ⟨c, cs⟩
  · rfl
  · rw [ht] at h
    have hc : c = '.' := by simpa using h
    subst hc
    rfl

theorem trimChars_use_body (v : String) :
    trimChars (".use(".data ++ (v.data ++ [')']))
      = ".use(".data ++ (v.data ++ [')']) := by
  apply trimChars_eq_self
  · intro c hc
    rw [show ((".use(".data ++ (v.data ++ [')'])).head? = some '.')
      from rfl] at hc
    rw [(Option.some.inj hc).symm]; decide
  · intro c hc
    rw [show ".use(".data ++ (v.data ++ [')'])
      = (".use(".data ++ v.data) ++ [')'] by simp,
      List.getLast?_concat] at hc
    rw [(Option.some.inj hc).symm]; decide

theorem parseImportLine_use_none (v : String) :
    parseImportLine ("  .use(" ++ v ++ ")") = none := by
  apply parseImportLine_dot
  have hdata : ("  .use(" ++ v ++ ")").data
      = ' ' :: ' ' :: (".use(".data ++ (v.data ++ [')'])) := by
    simp [String.data_append]
  rw [hdata, trimChars_cons_ws _ _ (by decide),
    trimChars_cons_ws _ _ (by decide), trimChars_use_body]
  rfl

/-! ## Fixpoint behaviour of `updateIndexFile` -/

/-- If the canonical import exists and either the canonical registration
exists or no anchor line is present, the upsert leaves the content
untouched. -/
theorem updateIndexFile_noop (cfg : RouteConfig) (c : String)
    (hImp : ((parseIndexInfo c).imports.any fun imp =>
      imp.variableName = generateRouteVariableName cfg) = true)
    (hUse : ((parseIndexInfo c).routeUses.any fun u =>
        u.variableName = generateRouteVariableName cfg) = true
      ∨ lastUseAnchor (splitLines c) = none) :
    updateIndexFile cfg c = c := by
  rcases hUse with hU | hA
  · simp [updateIndexFile, hImp, hU]
  · by_cases hU : ((parseIndexInfo c).routeUses.any fun u =>
        u.variableName = generateRouteVariableName cfg) = true
    · simp [updateIndexFile, hImp, hU]
    · have hUf : ((parseIndexInfo c).routeUses.any fun u =>
          u.variableName = generateRouteVariableName cfg) = false :=
        Bool.eq_false_iff.mpr hU
      simp [updateIndexFile, hImp, hUf, hA]

/-- After one upsert, the canonical import is always present, and either
the canonical registration is present or the updated content has no
anchor line.  These are exactly the premises of
`updateIndexFile_noop`. -/
theorem updateIndexFile_establishes (cfg : RouteConfig) (c : String)
    (hm2 : ∀ ch ∈ cfg.module.data, wordChar ch = true)
    (hv2 : ∀ ch ∈ cfg.version.data, wordChar ch = true) :
    ((parseIndexInfo (updateIndexFile cfg c)).imports.any fun imp =>
      imp.variableName = generateRouteVariableName cfg) = true
    ∧ (((parseIndexInfo (updateIndexFile cfg c)).routeUses.any fun u =>
        u.variableName = generateRouteVariableName cfg) = true
      ∨ lastUseAnchor (splitLines (updateIndexFile cfg c)) = none) := by
  have hvarw := routeVariableName_wordchar cfg hm2 hv2
  have hvarne := routeVariableName_ne_nil cfg
  have hK := lastImportLine_le c
  have hnl0 := mem_splitLines_no_newline c
  by_cases hIE : ((parseIndexInfo c).imports.any fun imp =>
      imp.variableName = generateRouteVariableName cfg) = true
  · by_cases hUE : ((parseIndexInfo c).routeUses.any fun u =>
        u.variableName = generateRouteVariableName cfg) = true
    · have hc1 : updateIndexFile cfg c = c := by
        simp [updateIndexFile, hIE, hUE]
      rw [hc1]
      exact ⟨hIE, Or.inl hUE⟩
    · have hUEf : ((parseIndexInfo c).routeUses.any fun u =>
          u.variableName = generateRouteVariableName cfg) = false :=
        Bool.eq_false_iff.mpr hUE
      rcases hA : lastUseAnchor (splitLines c) with _ | k
      · have hc1 : updateIndexFile cfg c = c := by
          simp [updateIndexFile, hIE, hUEf, hA]
        rw [hc1]
        exact ⟨hIE, Or.inr hA⟩
      · have hk : k ≤ (splitLines c).length := lastUseAnchor_le _ k hA
        have hc1 : updateIndexFile cfg c
            = joinLines ((splitLines c).insertIdx k
              ("  .use(" ++ generateRouteVariableName cfg ++ ")")) := by
          simp [updateIndexFile, hIE, hUEf, hA]
        have hmemU : ("  .use(" ++ generateRouteVariableName cfg ++ ")")
            ∈ (splitLines c).insertIdx k
              ("  .use(" ++ generateRouteVariableName cfg ++ ")") :=
          mem_insertIdx_self _ k _ hk
        have hsplit : splitLines (updateIndexFile cfg c)
            = (splitLines c).insertIdx k
              ("  .use(" ++ generateRouteVariableName cfg ++ ")") := by
          rw [hc1]
          apply splitLines_joinLines
          · exact List.ne_nil_of_mem hmemU
          · intro l hl
            rcases mem_of_mem_insertIdx hk hl with rfl | hl0
            · exact useLine_no_newline _ hvarw
            · exact hnl0 l hl0
        constructor
        · obtain ⟨l, hl, p, hp⟩ := (imports_any_var_iff c _).mp hIE
          apply (imports_any_var_iff _ _).mpr
          exact ⟨l, by rw [hsplit]; exact mem_insertIdx_of_mem _ k _ hk hl,
            p, hp⟩
        · left
          apply (uses_any_var_iff _ _).mpr
          exact ⟨_, by rw [hsplit]; exact hmemU,
            lineUseVar_use_line _ hvarne hvarw⟩
  · have hIEf : ((parseIndexInfo c).imports.any fun imp =>
        imp.variableName = generateRouteVariableName cfg) = false :=
      Bool.eq_false_iff.mpr hIE
    have hmemS : generateImportStatement cfg
        ∈ (splitLines c).insertIdx (parseIndexInfo c).lastImportLine
          (generateImportStatement cfg) :=
      mem_insertIdx_self _ _ _ hK
    have hnl1 : ∀ l ∈ (splitLines c).insertIdx
        (parseIndexInfo c).lastImportLine (generateImportStatement cfg),
        '\n' ∉ l.data := by
      intro l hl
      rcases mem_of_mem_insertIdx hK hl with rfl | hl0
      · exact stmt_no_newline cfg hm2 hv2
      · exact hnl0 l hl0
    have hne1 : (splitLines c).insertIdx
        (parseIndexInfo c).lastImportLine (generateImportStatement cfg)
        ≠ [] := List.ne_nil_of_mem hmemS
    by_cases hUE : ((parseIndexInfo c).routeUses.any fun u =>
        u.variableName = generateRouteVariableName cfg) = true
    · have hc1 : updateIndexFile cfg c
          = joinLines ((splitLines c).insertIdx
            (parseIndexInfo c).lastImportLine
            (generateImportStatement cfg)) := by
        simp [updateIndexFile, hIEf, hUE]
      have hsplit : splitLines (updateIndexFile cfg c)
          = (splitLines c).insertIdx (parseIndexInfo c).lastImportLine
            (generateImportStatement cfg) := by
        rw [hc1]
        exact splitLines_joinLines _ hne1 hnl1
      constructor
      · apply (imports_any_var_iff _ _).mpr
        exact ⟨_, by rw [hsplit]; exact hmemS, _,
          parseImportLine_stmt cfg hm2 hv2⟩
      · left
        obtain ⟨l, hl, hu⟩ := (uses_any_var_iff c _).mp hUE
        apply (uses_any_var_iff _ _).mpr
        exact ⟨l, by rw [hsplit]; exact mem_insertIdx_of_mem _ _ _ hK hl, hu⟩
    · have hUEf : ((parseIndexInfo c).routeUses.any fun u =>
          u.variableName = generateRouteVariableName cfg) = false :=
        Bool.eq_false_iff.mpr hUE
      rcases hA : lastUseAnchor ((splitLines c).insertIdx
          (parseIndexInfo c).lastImportLine
          (generateImportStatement cfg)) with _ | k
      · have hc1 : updateIndexFile cfg c
            = joinLines ((splitLines c).insertIdx
              (parseIndexInfo c).lastImportLine
              (generateImportStatement cfg)) := by
          simp [updateIndexFile, hIEf, hUEf, hA]
        have hsplit : splitLines (updateIndexFile cfg c)
            = (splitLines c).insertIdx (parseIndexInfo c).lastImportLine
              (generateImportStatement cfg) := by
          rw [hc1]
          exact splitLines_joinLines _ hne1 hnl1
        refine ⟨?_, Or.inr ?_⟩
        · apply (imports_any_var_iff _ _).mpr
          exact ⟨_, by rw [hsplit]; exact hmemS, _,
            parseImportLine_stmt cfg hm2 hv2⟩
        · rw [hsplit]
          exact hA
      · have hk : k ≤ ((splitLines c).insertIdx
            (parseIndexInfo c).lastImportLine
            (generateImportStatement cfg)).length :=
          lastUseAnchor_le _ k hA
        have hc1 : updateIndexFile cfg c
            = joinLines (((splitLines c).insertIdx
              (parseIndexInfo c).lastImportLine
              (generateImportStatement cfg)).insertIdx k
                ("  .use(" ++ generateRouteVariableName cfg ++ ")")) := by
          simp [updateIndexFile, hIEf, hUEf, hA]
        have hmemU : ("  .use(" ++ generateRouteVariableName cfg ++ ")")
            ∈ ((splitLines c).insertIdx (parseIndexInfo c).lastImportLine
              (generateImportStatement cfg)).insertIdx k
                ("  .use(" ++ generateRouteVariableName cfg ++ ")") :=
          mem_insertIdx_self _ k _ hk
        have hsplit : splitLines (updateIndexFile cfg c)
            = ((splitLines c).insertIdx (parseIndexInfo c).lastImportLine
              (generateImportStatement cfg)).insertIdx k
                ("  .use(" ++ generateRouteVariableName cfg ++ ")") := by
          rw [hc1]
          apply splitLines_joinLines
          · exact List.ne_nil_of_mem hmemU
          · intro l hl
            rcases mem_of_mem_insertIdx hk hl with rfl | hl1
            · exact useLine_no_newline _ hvarw
            · exact hnl1 l hl1
        constructor
        · apply (imports_any_var_iff _ _).mpr
          refine ⟨_, ?_, _, parseImportLine_stmt cfg hm2 hv2⟩
          rw [hsplit]
          exact mem_insertIdx_of_mem _ k _ hk hmemS
        · left
          apply (uses_any_var_iff _ _).mpr
          exact ⟨_, by rw [hsplit]; exact hmemU,
            lineUseVar_use_line _ hvarne hvarw⟩

/-- C4: for every route spec whose module and version are `\w`-words and
every aggregator content, a second upsert right after a first one changes
nothing: after the first run both the canonical import record and (when an
anchor existed) the canonical use record are present, so the second run
inserts neither line. -/
theorem generate_upsert_idempotent (cfg : RouteConfig) (c : String)
    (hm2 : ∀ ch ∈ cfg.module.data, wordChar ch = true)
    (hv2 : ∀ ch ∈ cfg.version.data, wordChar ch = true) :
    updateIndexFile cfg (updateIndexFile cfg c) = updateIndexFile cfg c := by
  obtain ⟨h1, h2⟩ := updateIndexFile_establishes cfg c hm2 hv2
  exact updateIndexFile_noop cfg _ h1 h2

theorem generate_upsert_idempotent_witness :
    (∀ ch ∈ ("users" : String).data, wordChar ch = true)
    ∧ updateIndexFile usersConfig
        (updateIndexFile usersConfig ".use(appRoutes)")
      = updateIndexFile usersConfig ".use(appRoutes)" :=
  ⟨by decide,
    generate_upsert_idempotent usersConfig ".use(appRoutes)"
      (by decide) (by decide)⟩

/-! ## The successful registration scan decomposes the line -/

theorem drop_takeWhile_length (p : Char → Bool) :
    ∀ l : List Char, l.drop (l.takeWhile p).length = l.dropWhile p := by
  intro l
  induction l with
  | nil => rfl
  | cons a l ih =>
    by_cases hp : p a = true
    · rw [List.takeWhile_cons, if_pos hp, List.dropWhile_cons, if_pos hp,
        List.length_cons, List.drop_succ_cons]
      exact ih
    · rw [List.takeWhile_cons, if_neg (by simp [hp]), List.dropWhile_cons,
        if_neg (by simp [hp])]
      rfl

theorem findUseVar_decomp :
    ∀ (cs : List Char) (v : String), findUseVar cs = some v →
      ∃ u t, cs = u ++ ".use(".data ++ v.data ++ ')' :: t := by
  intro cs
  induction cs with
  | nil => intro v h; cases h
  | cons c rest ih =>
    intro v h
    rw [findUseVar] at h
    by_cases hpre : ".use(".data.isPrefixOf (c :: rest) = true
    · rw [if_pos hpre] at h
      by_cases hw : ((((c :: rest).drop 5).takeWhile wordChar).isEmpty
          = true)
      · rw [if_pos hw] at h
        obtain ⟨u, t, hu⟩ := ih v h
        exact ⟨c :: u, t, by rw [hu]; simp [List.append_assoc]⟩
      · rw [if_neg hw] at h
        rw [drop_takeWhile_length] at h
        split at h
        · next ds hdw =>
            have hv : v = String.mk (((c :: rest).drop 5).takeWhile
                wordChar) := by simpa using h.symm
            obtain ⟨tail, htail⟩ := List.isPrefixOf_iff_prefix.mp hpre
            have htail5 : tail = (c :: rest).drop 5 := by
              have h5 := congrArg (List.drop 5) htail
              rw [List.drop_left' (by rfl)] at h5
              exact h5
            refine ⟨[], ds, ?_⟩
            rw [List.nil_append, ← htail, hv]
            show ".use(".data ++ tail
              = ".use(".data ++ (((c :: rest).drop 5).takeWhile wordChar)
                ++ ')' :: ds
            rw [List.append_assoc]
            congr 1
            rw [htail5, ← hdw, List.takeWhile_append_dropWhile]
        · next =>
            obtain ⟨u, t, hu⟩ := ih v h
            exact ⟨c :: u, t, by rw [hu]; simp [List.append_assoc]⟩
    · rw [if_neg hpre] at h
      obtain ⟨u, t, hu⟩ := ih v h
      exact ⟨c :: u, t, by rw [hu]; simp [List.append_assoc]⟩

theorem trimChars_decomp (l : List Char) :
    ∃ p s, l = p ++ trimChars l ++ s := by
  refine ⟨l.takeWhile isWsChar,
    ((l.dropWhile isWsChar).reverse.takeWhile isWsChar).reverse, ?_⟩
  unfold trimChars
  conv_lhs => rw [← List.takeWhile_append_dropWhile (p := isWsChar)
    (l := l)]
  rw [List.append_assoc]
  congr 1
  rw [← List.reverse_append, List.takeWhile_append_dropWhile,
    List.reverse_reverse]

theorem routeVar_data_routes (cfg : RouteConfig) :
    (generateRouteVariableName cfg).data
      = (cfg.module ++ jsCapitalize cfg.version).data ++ "Routes".data := by
  simp [generateRouteVariableName, String.data_append]

/-- A line whose registration scan succeeds contains the `.use(`
substring. -/
theorem use_line_contains_use (l : String) (v : String)
    (hu : lineUseVar l = some v) :
    containsSubstr l ".use(" = true := by
  obtain ⟨u, t, hdec⟩ := findUseVar_decomp _ v hu
  obtain ⟨p, s, hps⟩ := trimChars_decomp l.data
  rw [containsSubstr, infixOfChars_iff]
  refine ⟨p ++ u, v.data ++ ')' :: t ++ s, ?_⟩
  rw [hps, hdec]
  simp [List.append_assoc]

/-- A line whose registration scan yields the canonical route variable
contains the `Routes` substring: the variable itself ends in `Routes`. -/
theorem use_line_contains_routes (cfg : RouteConfig) (l : String)
    (hu : lineUseVar l = some (generateRouteVariableName cfg)) :
    containsSubstr l "Routes" = true := by
  obtain ⟨u, t, hdec⟩ :=
    findUseVar_decomp _ (generateRouteVariableName cfg) hu
  obtain ⟨p, s, hps⟩ := trimChars_decomp l.data
  rw [containsSubstr, infixOfChars_iff]
  refine ⟨p ++ (u ++ ".use(".data
    ++ (cfg.module ++ jsCapitalize cfg.version).data),
    ')' :: t ++ s, ?_⟩
  rw [hps, hdec, routeVar_data_routes cfg]
  simp [List.append_assoc]

/-- A line carrying the canonical registration satisfies the anchor
predicate of `updateIndexFile`. -/
theorem anchor_of_canonical_use (cfg : RouteConfig) (l : String)
    (hu : lineUseVar l = some (generateRouteVariableName cfg)) :
    (containsSubstr l ".use(" && containsSubstr l "Routes") = true := by
  rw [use_line_contains_use l _ hu, use_line_contains_routes cfg l hu]
  rfl

/-- C9: on a content with no line containing both `.use(` and `Routes`,
the upsert inserts the import statement but no registration line (the
result is exactly the original lines with the import spliced in), the
module ends up imported but never registered, and a repeated upsert
changes nothing, so the missing registration is never added. -/
theorem import_without_registration (cfg : RouteConfig) (c : String)
    (hm2 : ∀ ch ∈ cfg.module.data, wordChar ch = true)
    (hv2 : ∀ ch ∈ cfg.version.data, wordChar ch = true)
    (hanchor : ∀ l ∈ splitLines c,
      (containsSubstr l ".use(" && containsSubstr l "Routes") = false)
    (hnoimp : ((parseIndexInfo c).imports.any fun imp =>
      imp.variableName = generateRouteVariableName cfg) = false) :
    updateIndexFile cfg c
      = joinLines ((splitLines c).insertIdx
          (parseIndexInfo c).lastImportLine (generateImportStatement cfg))
    ∧ ((parseIndexInfo (updateIndexFile cfg c)).imports.any fun imp =>
        imp.variableName = generateRouteVariableName cfg) = true
    ∧ ((parseIndexInfo (updateIndexFile cfg c)).routeUses.any fun u =>
        u.variableName = generateRouteVariableName cfg) = false
    ∧ updateIndexFile cfg (updateIndexFile cfg c)
        = updateIndexFile cfg c := by
  have hK := lastImportLine_le c
  have hnl0 := mem_splitLines_no_newline c
  have hUEf : ((parseIndexInfo c).routeUses.any fun u =>
      u.variableName = generateRouteVariableName cfg) = false := by
    rw [Bool.eq_false_iff]
    intro hUE
    obtain ⟨l, hl, hu⟩ := (uses_any_var_iff c _).mp hUE
    have hcon := anchor_of_canonical_use cfg l hu
    rw [hanchor l hl] at hcon
    cases hcon
  have hA1 : lastUseAnchor ((splitLines c).insertIdx
      (parseIndexInfo c).lastImportLine (generateImportStatement cfg))
      = none := by
    rw [lastUseAnchor_none_iff]
    intro l hl
    rcases mem_of_mem_insertIdx hK hl with rfl | hl0
    · exact anchorPred_stmt_false cfg hm2 hv2
    · exact hanchor l hl0
  have hc1 : updateIndexFile cfg c
      = joinLines ((splitLines c).insertIdx
          (parseIndexInfo c).lastImportLine
          (generateImportStatement cfg)) := by
    simp [updateIndexFile, hnoimp, hUEf, hA1]
  have hmemS : generateImportStatement cfg ∈ (splitLines c).insertIdx
      (parseIndexInfo c).lastImportLine (generateImportStatement cfg) :=
    mem_insertIdx_self _ _ _ hK
  have hsplit : splitLines (updateIndexFile cfg c)
      = (splitLines c).insertIdx (parseIndexInfo c).lastImportLine
        (generateImportStatement cfg) := by
    rw [hc1]
    apply splitLines_joinLines _ (List.ne_nil_of_mem hmemS)
    intro l hl
    rcases mem_of_mem_insertIdx hK hl with rfl | hl0
    · exact stmt_no_newline cfg hm2 hv2
    · exact hnl0 l hl0
  have hImp1 : ((parseIndexInfo (updateIndexFile cfg c)).imports.any
      fun imp => imp.variableName = generateRouteVariableName cfg)
      = true := by
    apply (imports_any_var_iff _ _).mpr
    exact ⟨_, by rw [hsplit]; exact hmemS, _,
      parseImportLine_stmt cfg hm2 hv2⟩
  have hUse1 : ((parseIndexInfo (updateIndexFile cfg c)).routeUses.any
      fun u => u.variableName = generateRouteVariableName cfg)
      = false := by
    rw [Bool.eq_false_iff]
    intro hUE
    obtain ⟨l, hl, hu⟩ := (uses_any_var_iff _ _).mp hUE
    rw [hsplit] at hl
    rcases mem_of_mem_insertIdx hK hl with rfl | hl0
    · rw [lineUseVar_stmt_none cfg hm2 hv2] at hu
      cases hu
    · have hcon := anchor_of_canonical_use cfg l hu
      rw [hanchor l hl0] at hcon
      cases hcon
  refine ⟨hc1, hImp1, hUse1, ?_⟩
  apply updateIndexFile_noop cfg _ hImp1
  right
  rw [hsplit]
  exact hA1

theorem import_without_registration_witness :
    (∀ l ∈ splitLines "",
      (containsSubstr l ".use(" && containsSubstr l "Routes") = false)
    ∧ (updateIndexFile usersConfig ""
        = joinLines ((splitLines "").insertIdx
            (parseIndexInfo "").lastImportLine
            (generateImportStatement usersConfig))
      ∧ ((parseIndexInfo (updateIndexFile usersConfig "")).imports.any
          fun imp =>
            imp.variableName = generateRouteVariableName usersConfig)
          = true
      ∧ ((parseIndexInfo (updateIndexFile usersConfig "")).routeUses.any
          fun u =>
            u.variableName = generateRouteVariableName usersConfig)
          = false
      ∧ updateIndexFile usersConfig (updateIndexFile usersConfig "")
          = updateIndexFile usersConfig "") :=
  ⟨by decide,
    import_without_registration usersConfig "" (by decide) (by decide)
      (by decide) (by decide)⟩

/-- C6: the clean operation removes exactly the builder-generated import
lines and the registration lines whose `.use` variable matches one of
those imports, keeps every other line of the aggregator file, and
preserves the relative order of the kept lines: the two-phase descending
removal (imports first, then a re-parse, then registrations) equals one
order-preserving filter of the original lines. -/
theorem clean_removes_exactly_builder_lines (c : String) :
    cleanupIndexFile c
      = joinLines ((splitLines c).filter fun l =>
          !isBuilderImportLine l && !isRemovedUseLine c l) :=
  cleanupIndexFile_eq_filter c

theorem nameless_routes_collide_witness :
    namelessRoute1.name = none ∧ namelessRoute2.name = none
    ∧ jsTemplateName namelessRoute1.name ++ "PayloadSchema"
        = "undefinedPayloadSchema"
    ∧ jsTemplateName namelessRoute1.name ++ "PayloadSchema"
        = jsTemplateName namelessRoute2.name ++ "PayloadSchema" :=
  ⟨rfl, rfl,
    (nameless_routes_collide namelessRoute1 namelessRoute2 rfl rfl).1,
    (nameless_routes_collide namelessRoute1 namelessRoute2 rfl rfl).2.1⟩

/-! ## The clean step empties the builder output directory -/

theorem foldl_filter_all (l : List String) :
    ∀ d : List String, (∀ x ∈ d, x ∈ l) →
      l.foldl (fun dir item => dir.filter fun e => e ≠ item) d = [] := by
  induction l with
  | nil =>
    intro d hd
    cases d with
    | nil => rfl
    | cons a as => exact absurd (hd a (List.mem_cons_self a as)) (by simp)
  | cons a l ih =>
    intro d hd
    show l.foldl _ (d.filter fun e => e ≠ a) = []
    apply ih
    intro x hx
    obtain ⟨hxd, hxa⟩ := List.mem_filter.mp hx
    rcases List.mem_cons.mp (hd x hxd) with rfl | hxl
    · exact absurd hxa (by simp)
    · exact hxl

/-- Removing every listed directory entry leaves the directory empty. -/
theorem cleanupBuilderDirectory_empties (items : List String) :
    cleanupBuilderDirectory items = [] :=
  foldl_filter_all items items fun _ h => h

/-- C5 counterexample: the aggregator content `.use(usersV1Routes)`
contains no builder-generated import, yet generate followed by clean
yields the empty string rather than restoring it: clean also removes the
pre-existing registration whose variable matches the canonical name. -/
theorem generate_clean_roundtrip_counterexample :
    cleanupIndexFile (updateIndexFile usersConfig ".use(usersV1Routes)")
      = ""
    ∧ cleanupIndexFile (updateIndexFile usersConfig ".use(usersV1Routes)")
      ≠ ".use(usersV1Routes)" := by
  constructor
  · rfl
  · decide

/-- C5 amended: generate followed by clean restores the aggregator file
and empties the output directory, provided the content has no
builder-generated import *and additionally* no pre-existing import or
registration already uses the canonical route-variable name — without
that extra condition clean also deletes those pre-existing lines, as the
counterexample shows. -/
theorem generate_clean_roundtrip_amended (cfg : RouteConfig) (c : String)
    (hm2 : ∀ ch ∈ cfg.module.data, wordChar ch = true)
    (hv2 : ∀ ch ∈ cfg.version.data, wordChar ch = true)
    (hnb : ∀ r ∈ (parseIndexInfo c).imports,
      isBuilderImportPath r.importPath = false)
    (hnoimp : ((parseIndexInfo c).imports.any fun imp =>
      imp.variableName = generateRouteVariableName cfg) = false)
    (hnouse : ((parseIndexInfo c).routeUses.any fun u =>
      u.variableName = generateRouteVariableName cfg) = false) :
    cleanupIndexFile (updateIndexFile cfg c) = c
    ∧ ∀ items : List String, cleanupBuilderDirectory items = [] := by
  refine ⟨?_, fun items => cleanupBuilderDirectory_empties items⟩
  have hK := lastImportLine_le c
  have hnl0 := mem_splitLines_no_newline c
  have hvarw := routeVariableName_wordchar cfg hm2 hv2
  have hvarne := routeVariableName_ne_nil cfg
  have hnbLine : ∀ l ∈ splitLines c, isBuilderImportLine l = false := by
    intro l hl
    cases hp : parseImportLine l with
    | none => simp [isBuilderImportLine, hp]
    | some vp =>
      obtain ⟨r, hr, hrv, hrp⟩ := mem_imports_of_line c l vp hl hp
      simp only [isBuilderImportLine, hp]
      rw [← hrp]
      exact hnb r hr
  have hmemS : generateImportStatement cfg ∈ (splitLines c).insertIdx
      (parseIndexInfo c).lastImportLine (generateImportStatement cfg) :=
    mem_insertIdx_self _ _ _ hK
  have hnl1 : ∀ l ∈ (splitLines c).insertIdx
      (parseIndexInfo c).lastImportLine (generateImportStatement cfg),
      '\n' ∉ l.data := by
    intro l hl
    rcases mem_of_mem_insertIdx hK hl with rfl | hl0
    · exact stmt_no_newline cfg hm2 hv2
    · exact hnl0 l hl0
  have hblS : isBuilderImportLine (generateImportStatement cfg) = true :=
    isBuilderImportLine_stmt cfg hm2 hv2
  have hblU : isBuilderImportLine
      ("  .use(" ++ generateRouteVariableName cfg ++ ")") = false := by
    unfold isBuilderImportLine
    rw [parseImportLine_use_none]
  rcases hA : lastUseAnchor ((splitLines c).insertIdx
      (parseIndexInfo c).lastImportLine (generateImportStatement cfg))
      with _ | k
  · -- no anchor: only the import was inserted
    have hc1 : updateIndexFile cfg c
        = joinLines ((splitLines c).insertIdx
            (parseIndexInfo c).lastImportLine
            (generateImportStatement cfg)) := by
      simp [updateIndexFile, hnoimp, hnouse, hA]
    have hsplit : splitLines (updateIndexFile cfg c)
        = (splitLines c).insertIdx (parseIndexInfo c).lastImportLine
          (generateImportStatement cfg) := by
      rw [hc1]
      exact splitLines_joinLines _ (List.ne_nil_of_mem hmemS) hnl1
    have hvars : ∀ v,
        (builderImportVars (updateIndexFile cfg c)).contains v = true →
          v = generateRouteVariableName cfg := by
      intro v hv
      obtain ⟨l, hl, p, hp, hbp⟩ :=
        (builderImportVars_contains_iff _ v).mp hv
      rw [hsplit] at hl
      rcases mem_of_mem_insertIdx hK hl with rfl | hl0
      · rw [parseImportLine_stmt cfg hm2 hv2] at hp
        exact congrArg Prod.fst (Option.some.inj hp) |>.symm
      · exfalso
        have hbf := hnbLine l hl0
        simp only [isBuilderImportLine, hp] at hbf
        rw [hbf] at hbp
        cases hbp
    have hkeep : ∀ l ∈ splitLines c,
        (!isBuilderImportLine l
          && !isRemovedUseLine (updateIndexFile cfg c) l) = true := by
      intro l hl
      rw [hnbLine l hl]
      have hrm : isRemovedUseLine (updateIndexFile cfg c) l = false := by
        cases hu : lineUseVar l with
        | none => simp [isRemovedUseLine, hu]
        | some v =>
          simp only [isRemovedUseLine, hu]
          cases hcv : (builderImportVars
              (updateIndexFile cfg c)).contains v with
          | false => rfl
          | true =>
            exfalso
            have hvv := hvars v hcv
            subst hvv
            have hue : ((parseIndexInfo c).routeUses.any fun u =>
                u.variableName = generateRouteVariableName cfg) = true :=
              (uses_any_var_iff c _).mpr ⟨l, hl, hu⟩
            rw [hnouse] at hue
            cases hue
      rw [hrm]
      rfl
    have hstmtDrop : (!isBuilderImportLine (generateImportStatement cfg)
        && !isRemovedUseLine (updateIndexFile cfg c)
          (generateImportStatement cfg)) = false := by
      rw [hblS]
      rfl
    rw [cleanupIndexFile_eq_filter, hsplit]
    rw [filter_insertIdx_of_neg _ _ _ _ hK hstmtDrop]
    rw [List.filter_eq_self.mpr hkeep]
    exact joinLines_splitLines c
  · -- anchor found: import and registration were both inserted
    have hk : k ≤ ((splitLines c).insertIdx
        (parseIndexInfo c).lastImportLine
        (generateImportStatement cfg)).length :=
      lastUseAnchor_le _ k hA
    have hmemU : ("  .use(" ++ generateRouteVariableName cfg ++ ")")
        ∈ ((splitLines c).insertIdx (parseIndexInfo c).lastImportLine
          (generateImportStatement cfg)).insertIdx k
            ("  .use(" ++ generateRouteVariableName cfg ++ ")") :=
      mem_insertIdx_self _ k _ hk
    have hc1 : updateIndexFile cfg c
        = joinLines (((splitLines c).insertIdx
            (parseIndexInfo c).lastImportLine
            (generateImportStatement cfg)).insertIdx k
              ("  .use(" ++ generateRouteVariableName cfg ++ ")")) := by
      simp [updateIndexFile, hnoimp, hnouse, hA]
    have hsplit : splitLines (updateIndexFile cfg c)
        = ((splitLines c).insertIdx (parseIndexInfo c).lastImportLine
          (generateImportStatement cfg)).insertIdx k
            ("  .use(" ++ generateRouteVariableName cfg ++ ")") := by
      rw [hc1]
      apply splitLines_joinLines _ (List.ne_nil_of_mem hmemU)
      intro l hl
      rcases mem_of_mem_insertIdx hk hl with rfl | hl1
      · exact useLine_no_newline _ hvarw
      · exact hnl1 l hl1
    have hvars : ∀ v,
        (builderImportVars (updateIndexFile cfg c)).contains v = true →
          v = generateRouteVariableName cfg := by
      intro v hv
      obtain ⟨l, hl, p, hp, hbp⟩ :=
        (builderImportVars_contains_iff _ v).mp hv
      rw [hsplit] at hl
      rcases mem_of_mem_insertIdx hk hl with rfl | hl1
      · rw [parseImportLine_use_none] at hp
        cases hp
      · rcases mem_of_mem_insertIdx hK hl1 with rfl | hl0
        · rw [parseImportLine_stmt cfg hm2 hv2] at hp
          exact congrArg Prod.fst (Option.some.inj hp) |>.symm
        · exfalso
          have hbf := hnbLine l hl0
          simp only [isBuilderImportLine, hp] at hbf
          rw [hbf] at hbp
          cases hbp
    have hkeep : ∀ l ∈ splitLines c,
        (!isBuilderImportLine l
          && !isRemovedUseLine (updateIndexFile cfg c) l) = true := by
      intro l hl
      rw [hnbLine l hl]
      have hrm : isRemovedUseLine (updateIndexFile cfg c) l = false := by
        cases hu : lineUseVar l with
        | none => simp [isRemovedUseLine, hu]
        | some v =>
          simp only [isRemovedUseLine, hu]
          cases hcv : (builderImportVars
              (updateIndexFile cfg c)).contains v with
          | false => rfl
          | true =>
            exfalso
            have hvv := hvars v hcv
            subst hvv
            have hue : ((parseIndexInfo c).routeUses.any fun u =>
                u.variableName = generateRouteVariableName cfg) = true :=
              (uses_any_var_iff c _).mpr ⟨l, hl, hu⟩
            rw [hnouse] at hue
            cases hue
      rw [hrm]
      rfl
    have hstmtDrop : (!isBuilderImportLine (generateImportStatement cfg)
        && !isRemovedUseLine (updateIndexFile cfg c)
          (generateImportStatement cfg)) = false := by
      rw [hblS]
      rfl
    have huseDrop : (!isBuilderImportLine
          ("  .use(" ++ generateRouteVariableName cfg ++ ")")
        && !isRemovedUseLine (updateIndexFile cfg c)
          ("  .use(" ++ generateRouteVariableName cfg ++ ")")) = false := by
      rw [hblU]
      have hrm : isRemovedUseLine (updateIndexFile cfg c)
          ("  .use(" ++ generateRouteVariableName cfg ++ ")") = true := by
        simp only [isRemovedUseLine, lineUseVar_use_line _ hvarne hvarw]
        apply (builderImportVars_contains_iff _ _).mpr
        refine ⟨generateImportStatement cfg, ?_, generateImportPath cfg,
          parseImportLine_stmt cfg hm2 hv2, isBuilderImportPath_gen cfg⟩
        rw [hsplit]
        exact mem_insertIdx_of_mem _ k _ hk hmemS
      rw [hrm]
      rfl
    rw [cleanupIndexFile_eq_filter, hsplit]
    rw [filter_insertIdx_of_neg _ _ _ _ hk huseDrop]
    rw [filter_insertIdx_of_neg _ _ _ _ hK hstmtDrop]
    rw [List.filter_eq_self.mpr hkeep]
    exact joinLines_splitLines c

theorem generate_clean_roundtrip_amended_witness :
    (∀ r ∈ (parseIndexInfo "import app from \"./app.routes\";").imports,
      isBuilderImportPath r.importPath = false)
    ∧ cleanupIndexFile (updateIndexFile usersConfig
        "import app from \"./app.routes\";")
      = "import app from \"./app.routes\";"
    ∧ cleanupBuilderDirectory ["users"] = [] := by
  have h := generate_clean_roundtrip_amended usersConfig
    "import app from \"./app.routes\";" (by decide) (by decide)
    (by decide) (by decide) (by decide)
  exact ⟨by decide, h.1, h.2 ["users"]⟩

end HlwCore

